import Mathlib

/-!
Verification of the maze-generation, segment-building, marker and
resource-cache core of the MazeSolver3D repository, via a shallow
embedding of the TypeScript source into Lean.

Grids (`number[][]` in the source) are lists of lists of naturals:
`0` is a Path cell, `1` a Wall cell, `2` an Opening cell.
Coordinates follow the source: `maze[y][x]` is row `y`, column `x`.
-/

namespace MazeSolver3D

/-- A maze layer: `number[][]` from the source, row-major. -/
abbrev Grid : Type := List (List Nat)

/-- `maze[y][x]` read with an out-of-range default of `1` (all generator
reads are guarded by bounds checks in the source, so the default is never
consulted there). -/
def getCell (g : Grid) (y x : Nat) : Nat :=
  (((g.get? y).getD []).get? x).getD 1

/-- `maze[y][x] = v`: out-of-range writes leave the grid unchanged. -/
def setCell (g : Grid) (y x : Nat) (v : Nat) : Grid :=
  match g.get? y with
  | some row => List.set g y (List.set row x v)
  | none => g

/-- The entry modes of the generators: `'none' | 'diagonal' | 'left&right'
| 'top&bottom'`. -/
inductive Entries
  | noEntries
  | diagonal
  | leftRight
  | topBottom
deriving DecidableEq

/-- The bias modes of the generators: `'none' | 'horizontal' | 'vertical'`. -/
inductive Bias
  | noBias
  | horizontal
  | vertical
deriving DecidableEq

/-- One of the four carving directions `[1,0], [-1,0], [0,1], [0,-1]`
(pairs `(dx, dy)`, where `x` is the column and `y` the row). -/
inductive Dir
  | px
  | mx
  | py
  | my
deriving DecidableEq

def Dir.dx : Dir → Int
  | .px => 1
  | .mx => -1
  | .py => 0
  | .my => 0

def Dir.dy : Dir → Int
  | .px => 0
  | .mx => 0
  | .py => 1
  | .my => -1

/-- The direction list `[[1,0],[-1,0],[0,1],[0,-1]]` in source order. -/
def baseDirs : List Dir := [.px, .mx, .py, .my]

/-- Stable insertion of an element into a list sorted descending by `key`,
mirroring the stability of `Array.prototype.sort`. -/
def insertDescBy (key : Dir → Int) (d : Dir) : List Dir → List Dir
  | [] => [d]
  | e :: es => if key d < key e then e :: insertDescBy key d es else d :: e :: es

/-- Stable sort, descending by `key`: models `sort((a, b) => b[k] - a[k])`. -/
def sortDescBy (key : Dir → Int) : List Dir → List Dir
  | [] => []
  | d :: ds => insertDescBy key d (sortDescBy key ds)

/-- The direction-order pipeline of `carve`: the outcome of the
`sort(() => Math.random() - 0.5)` shuffle is supplied by the oracle list
`shuffled`; a `horizontal` bias then stable-sorts descending by `dx`
(`sort((a, b) => b[0] - a[0])`), a `vertical` bias descending by `dy`. -/
def biasedDirs (bias : Bias) (shuffled : List Dir) : List Dir :=
  match bias with
  | .horizontal => sortDescBy Dir.dx shuffled
  | .vertical => sortDescBy Dir.dy shuffled
  | .noBias => shuffled

/-- The body of the recursive `carve(x, y)` of `randomizedDepthFirst`,
working through the shuffled direction list of the current cell
(`directions.forEach(([dx, dy]) => ...)`).  When a direction carves, the
recursive `carve(nx, ny)` starts on the shuffled list of the next oracle
index before the remaining directions of the current cell are processed.
`fuel` decreases on every step so the recursion is structural; every
theorem below holds for every fuel value, and the top-level call supplies
more fuel than the total number of steps the source recursion performs. -/
def carveDirs (w h : Nat) (bias : Bias) (O : Nat → List Dir) :
    Nat → Int → Int → List Dir → Grid → Nat → Grid × Nat
  | 0, _, _, _, g, k => (g, k)
  | _ + 1, _, _, [], g, k => (g, k)
  | fuel + 1, x, y, d :: rest, g, k =>
      let nx : Int := x + d.dx * 2
      let ny : Int := y + d.dy * 2
      if 0 ≤ nx ∧ nx < (w : Int) ∧ 0 ≤ ny ∧ ny < (h : Int) ∧
          getCell g ny.toNat nx.toNat = 1 then
        let g1 := setCell g ny.toNat nx.toNat 0
        let g2 := setCell g1 (y + d.dy).toNat (x + d.dx).toNat 0
        let r := carveDirs w h bias O fuel nx ny (biasedDirs bias (O k)) g2 (k + 1)
        carveDirs w h bias O fuel x y rest r.1 r.2
      else
        carveDirs w h bias O fuel x y rest g k

/-- The call `carve(x, y)`: consume the oracle shuffle for invocation `k`
and work through the resulting direction list. -/
def carve (w h : Nat) (bias : Bias) (O : Nat → List Dir) (fuel : Nat)
    (x y : Int) (g : Grid) (k : Nat) : Grid × Nat :=
  carveDirs w h bias O fuel x y (biasedDirs bias (O k)) g (k + 1)

/-- Border enforcement: `maze[0][i] = 1; maze[height-1][i] = 1` for every
column `i`, then `maze[i][0] = 1; maze[i][width-1] = 1` for every row `i`. -/
def applyBorders (g : Grid) (w h : Nat) : Grid :=
  let g1 := (List.range w).foldl (fun acc i => setCell (setCell acc 0 i 1) (h - 1) i 1) g
  (List.range h).foldl (fun acc i => setCell (setCell acc i 0 1) i (w - 1) 1) g1

/-- Entry carving, applied after border enforcement. -/
def applyEntries (g : Grid) (w h : Nat) : Entries → Grid
  | .noEntries => g
  | .diagonal => setCell (setCell g 1 0 0) (h - 2) (w - 1) 0
  | .leftRight => setCell (setCell g (h / 2) 0 0) (h / 2) (w - 1) 0
  | .topBottom => setCell (setCell g 0 (w / 2) 0) (h - 1) (w / 2) 0

/-- `randomizedDepthFirst(width, height, mazeEntries, bias)` from
`src/generator.ts`, with the random shuffle outcomes supplied by `O`.
The grid starts all-Wall, `maze[1][1]` is carved, `carve(1, 1)` runs,
borders are enforced and the entry cells are carved. -/
def randomizedDepthFirst (w h : Nat) (entries : Entries) (bias : Bias)
    (O : Nat → List Dir) : Grid :=
  let g0 : Grid := List.replicate h (List.replicate w 1)
  let g1 := setCell g0 1 1 0
  let r := carve w h bias O (5 * (w * h) + 5) 1 1 g1 0
  applyEntries (applyBorders r.1 w h) w h entries

/-- `addWalls(x, y)` of `randomizedPrims`: pushes the distance-2 wall
neighbours of `(x, y)` onto the frontier list. -/
def addWalls (w h : Nat) (g : Grid) (x y : Nat) (walls : List (Nat × Nat)) :
    List (Nat × Nat) :=
  let l1 := if 1 < x ∧ getCell g y (x - 2) = 1 then walls ++ [(x - 2, y)] else walls
  let l2 := if x + 2 < w ∧ getCell g y (x + 2) = 1 then l1 ++ [(x + 2, y)] else l1
  let l3 := if 1 < y ∧ getCell g (y - 2) x = 1 then l2 ++ [(x, y - 2)] else l2
  if y + 2 < h ∧ getCell g (y + 2) x = 1 then l3 ++ [(x, y + 2)] else l3

/-- The distance-2 Path neighbours of `(x, y)` (the `neighbors` filter of
the Prim's loop), with bounds in `Int` as in the source. -/
def primNeighbors (w h : Nat) (g : Grid) (x y : Nat) : List (Nat × Nat) :=
  let cand : List (Int × Int) :=
    [((x : Int) - 2, (y : Int)), ((x : Int) + 2, (y : Int)),
     ((x : Int), (y : Int) - 2), ((x : Int), (y : Int) + 2)]
  (cand.filter (fun p =>
    decide (0 ≤ p.1) && decide (p.1 < (w : Int)) && decide (0 ≤ p.2) &&
    decide (p.2 < (h : Int)) && decide (getCell g p.2.toNat p.1.toNat = 0))).map
    (fun p => (p.1.toNat, p.2.toNat))

/-- One execution of the `while (walls.length > 0)` loop of
`randomizedPrims`, fuelled.  `OW k` chooses the frontier entry spliced at
iteration `k` (`Math.floor(Math.random() * walls.length)`, modelled as
`OW k % walls.length`); `ON k` chooses among the Path neighbours. -/
def primsLoop (w h : Nat) (OW ON : Nat → Nat) :
    Nat → List (Nat × Nat) → Grid → Nat → Grid
  | 0, _, g, _ => g
  | _ + 1, [], g, _ => g
  | fuel + 1, walls@(_ :: _), g, k =>
      let i := OW k % walls.length
      let xy := (walls.get? i).getD (0, 0)
      let rest := walls.eraseIdx i
      let ns := primNeighbors w h g xy.1 xy.2
      if ns ≠ [] then
        let j := ON k % ns.length
        let nxy := (ns.get? j).getD (0, 0)
        let g1 := setCell g ((xy.2 + nxy.2) / 2) ((xy.1 + nxy.1) / 2) 0
        let g2 := setCell g1 xy.2 xy.1 0
        primsLoop w h OW ON fuel (addWalls w h g2 xy.1 xy.2 rest) g2 (k + 1)
      else
        primsLoop w h OW ON fuel rest g (k + 1)

/-- `randomizedPrims(width, height, mazeEntries, bias)` from
`src/generator.ts` (the `bias` parameter is unused by the source body). -/
def randomizedPrims (w h : Nat) (entries : Entries) (OW ON : Nat → Nat) : Grid :=
  let g0 : Grid := List.replicate h (List.replicate w 1)
  let g1 := setCell g0 1 1 0
  let walls0 := addWalls w h g1 1 1 []
  let g2 := primsLoop w h OW ON (5 * w * h) walls0 g1 0
  applyEntries (applyBorders g2 w h) w h entries

/-! ### Perfect-maze predicates

These express the spec's perfect-maze property: the Path cells of a layer,
the orthogonal Path-to-Path adjacencies among them, and connectivity. -/

/-- Number of rows of a grid. -/
def gridRows (g : Grid) : Nat := g.length

/-- An upper bound for the column indices of a grid: the longest row. -/
def gridCols (g : Grid) : Nat := (g.map List.length).foldr max 0

/-- All `(row, col)` positions of a grid, as a finite set. -/
def cellBox (g : Grid) : Finset (Nat × Nat) :=
  Finset.range (gridRows g) ×ˢ Finset.range (gridCols g)

/-- The set of Path cells (`value 0`) of a grid, as `(row, col)` pairs. -/
def pathSet (g : Grid) : Finset (Nat × Nat) :=
  (cellBox g).filter (fun p => getCell g p.1 p.2 = 0)

/-- The number of Path cells of a grid. -/
def pathCount (g : Grid) : Nat := (pathSet g).card

/-- The number of orthogonally adjacent Path-to-Path cell pairs of a set of
cells, each unordered pair counted once through its left / top member. -/
def pairsF (S : Finset (Nat × Nat)) : Nat :=
  (S.filter (fun p => (p.1, p.2 + 1) ∈ S)).card +
  (S.filter (fun p => (p.1 + 1, p.2) ∈ S)).card

/-- The number of orthogonally adjacent Path-to-Path cell pairs of a grid. -/
def pathPairs (g : Grid) : Nat := pairsF (pathSet g)

/-- Orthogonal adjacency of two cells (symmetric). -/
def adjacentCells (p q : Nat × Nat) : Prop :=
  q = (p.1, p.2 + 1) ∨ q = (p.1 + 1, p.2) ∨ p = (q.1, q.2 + 1) ∨ p = (q.1 + 1, q.2)

/-- One step between orthogonally adjacent Path cells of `g`. -/
def pathStep (g : Grid) (p q : Nat × Nat) : Prop :=
  p ∈ pathSet g ∧ q ∈ pathSet g ∧ adjacentCells p q

/-- Every Path cell of `g` is reachable from every other through
orthogonally adjacent Path cells. -/
def connectedPaths (g : Grid) : Prop :=
  ∀ p ∈ pathSet g, ∀ q ∈ pathSet g, Relation.ReflTransGen (pathStep g) p q

/-- The perfect-maze property claimed by the spec: the Path cells are
mutually reachable and the number of adjacent Path-to-Path pairs is the
number of Path cells minus one. -/
def isPerfectMaze (g : Grid) : Prop :=
  connectedPaths g ∧ pathPairs g + 1 = pathCount g

/-- The border cells of a `w × h` grid: row `0`, row `h - 1`, column `0`,
column `w - 1`. -/
def onBorder (w h y x : Nat) : Prop :=
  y = 0 ∨ y = h - 1 ∨ x = 0 ∨ x = w - 1

instance (w h y x : Nat) : Decidable (onBorder w h y x) := by
  unfold onBorder
  infer_instance

/-- The entry cells each `entries` mode carves into the border,
as `(row, col)` pairs. -/
def entryCells (w h : Nat) : Entries → List (Nat × Nat)
  | .noEntries => []
  | .diagonal => [(1, 0), (h - 2, w - 1)]
  | .leftRight => [(h / 2, 0), (h / 2, w - 1)]
  | .topBottom => [(0, w / 2), (h - 1, w / 2)]

/-! ### The carving-move relation

`CarveMove` captures one successful carving action of the depth-first
generator: from an already-carved odd-coordinate cell, a Wall cell two
steps away (in bounds) and the cell between them are both carved to Path.
Every grid the recursion of `carve` produces is reachable from the initial
grid through these moves, for any oracle, bias and fuel. -/

inductive CarveMove (w h : Nat) : Grid → Grid → Prop
  | right (g : Grid) (y x : Nat) :
      Odd y → Odd x → getCell g y x = 0 → x + 2 < w → getCell g y (x + 2) = 1 →
      CarveMove w h g (setCell (setCell g y (x + 2) 0) y (x + 1) 0)
  | left (g : Grid) (y x : Nat) :
      Odd y → Odd x → getCell g y x = 0 → 2 ≤ x → getCell g y (x - 2) = 1 →
      CarveMove w h g (setCell (setCell g y (x - 2) 0) y (x - 1) 0)
  | down (g : Grid) (y x : Nat) :
      Odd y → Odd x → getCell g y x = 0 → y + 2 < h → getCell g (y + 2) x = 1 →
      CarveMove w h g (setCell (setCell g (y + 2) x 0) (y + 1) x 0)
  | up (g : Grid) (y x : Nat) :
      Odd y → Odd x → getCell g y x = 0 → 2 ≤ y → getCell g (y - 2) x = 1 →
      CarveMove w h g (setCell (setCell g (y - 2) x 0) (y - 1) x 0)

/-- The all-Wall `w × h` grid with `maze[1][1]` carved: the state in which
the depth-first carving starts. -/
def initialGrid (w h : Nat) : Grid :=
  setCell (List.replicate h (List.replicate w 1)) 1 1 0

/-- Grids reachable from `g` by carving moves. -/
def CarveReach (w h : Nat) (g g' : Grid) : Prop :=
  Relation.ReflTransGen (CarveMove w h) g g'

/-- The number of members of `S` orthogonally adjacent to `z`, one
indicator per neighbour position. -/
def adjCount (S : Finset (Nat × Nat)) (z : Nat × Nat) : Nat :=
  (if (z.1, z.2 + 1) ∈ S then 1 else 0) + (if (z.1 + 1, z.2) ∈ S then 1 else 0) +
  (if 1 ≤ z.2 ∧ (z.1, z.2 - 1) ∈ S then 1 else 0) +
  (if 1 ≤ z.1 ∧ (z.1 - 1, z.2) ∈ S then 1 else 0)

/-- `m` is the corridor midpoint between the source cell `s` and the
target cell `t` of a carving move: it sits between them on one axis, with
the across-axis coordinate even and the along-axis one odd. -/
def HMid (s m t : Nat × Nat) : Prop :=
  (¬Even m.1 ∧ Even m.2 ∧ 1 ≤ m.2 ∧
    (((m.1, m.2 - 1) = s ∧ (m.1, m.2 + 1) = t) ∨
     ((m.1, m.2 - 1) = t ∧ (m.1, m.2 + 1) = s))) ∨
  (Even m.1 ∧ ¬Even m.2 ∧ 1 ≤ m.1 ∧
    (((m.1 - 1, m.2) = s ∧ (m.1 + 1, m.2) = t) ∨
     ((m.1 - 1, m.2) = t ∧ (m.1 + 1, m.2) = s)))

/-- The invariant of depth-first carving on an odd-by-odd grid: cells hold
`0` or `1`; Path cells stay strictly inside the border and are never at
even-even positions; a Path cell on an even row is a vertical corridor
midpoint (both vertical neighbours Path), on an even column a horizontal
one; and the Path graph is a tree (pair count one less than cell count,
all Path cells mutually reachable). -/
def CarveInv (w h : Nat) (g : Grid) : Prop :=
  (∀ y x, getCell g y x = 0 ∨ getCell g y x = 1) ∧
  (∀ y x, getCell g y x = 0 →
    1 ≤ y ∧ y ≤ h - 2 ∧ 1 ≤ x ∧ x ≤ w - 2 ∧ ¬(Even y ∧ Even x)) ∧
  (∀ y x, getCell g y x = 0 → Even y →
    getCell g (y - 1) x = 0 ∧ getCell g (y + 1) x = 0) ∧
  (∀ y x, getCell g y x = 0 → Even x →
    getCell g y (x - 1) = 0 ∧ getCell g y (x + 1) = 0) ∧
  pathPairs g + 1 = pathCount g ∧
  connectedPaths g

/-! ### Marker inference (`computeMarkersFromLayer`) -/

/-- `MarkerCell` from `MultiLayerMaze.ts`. -/
structure MarkerCell where
  row : Nat
  col : Nat
deriving DecidableEq

/-- `MazeMarkers` from `MultiLayerMaze.ts`; the source field `end` is a
reserved word in Lean and is called `stop` here. -/
structure MazeMarkers where
  start : Option MarkerCell
  stop : Option MarkerCell
deriving DecidableEq

/-- `layer[row][col]` as an option (`undefined` for a missing row or a
read past the end of a row). -/
def cellAt (g : Grid) (y x : Nat) : Option Nat :=
  ((g.get? y).getD []).get? x

/-- The body of the scan loop of `computeMarkersFromLayer`: push every
Path cell onto `paths` and, when it lies on the outer boundary, onto
`boundary`. -/
def markerScanStep (l : Grid) (rows cols : Nat)
    (acc : List MarkerCell × List MarkerCell) (row col : Nat) :
    List MarkerCell × List MarkerCell :=
  if cellAt l row col = some 0 then
    let cell : MarkerCell := ⟨row, col⟩
    (acc.1 ++ [cell],
      if row = 0 ∨ row = rows - 1 ∨ col = 0 ∨ col = cols - 1 then acc.2 ++ [cell]
      else acc.2)
  else acc

/-- The row-major scan of `computeMarkersFromLayer`, producing the
`paths` and `boundary` lists. -/
def markerScan (l : Grid) (rows cols : Nat) : List MarkerCell × List MarkerCell :=
  (List.range rows).foldl
    (fun acc row => (List.range cols).foldl (fun a col => markerScanStep l rows cols a row col) acc)
    ([], [])

/-- `computeMarkersFromLayer(layer)` from `MultiLayerMaze.ts`. -/
def computeMarkersFromLayer : Option Grid → Option MazeMarkers
  | none => none
  | some l =>
      if l.length = 0 then none
      else
        let rows := l.length
        let cols := ((l.get? 0).getD []).length
        let pb := markerScan l rows cols
        let start0 : Option MarkerCell := pb.2.head?
        let end0 : Option MarkerCell := if 1 < pb.2.length then pb.2.getLast? else none
        let start1 := if start0 = none then pb.1.head? else start0
        let end1 :=
          if end0 = none then (if 1 < pb.1.length then pb.1.getLast? else start1) else end0
        some ⟨start1, end1⟩

/-- Row-major list of all `(row, col)` positions of a `rows × cols` scan. -/
def scanOrder (rows cols : Nat) : List (Nat × Nat) :=
  (List.range rows).flatMap (fun r => (List.range cols).map (fun c => (r, c)))

/-- The Path cells of a layer in row-major scan order (the specification's
description of the `paths` list). -/
def pathsInOrder (l : Grid) (rows cols : Nat) : List MarkerCell :=
  (scanOrder rows cols).filterMap
    (fun p => if cellAt l p.1 p.2 = some 0 then some ⟨p.1, p.2⟩ else none)

/-- The boundary Path cells of a layer in row-major scan order. -/
def boundaryInOrder (l : Grid) (rows cols : Nat) : List MarkerCell :=
  (pathsInOrder l rows cols).filter
    (fun c => decide (c.row = 0 ∨ c.row = rows - 1 ∨ c.col = 0 ∨ c.col = cols - 1))

/-! ### Wall-segment and floor-tile derivation (`createMaze`)

`MultiLayerMaze.createMaze` walks the stack and, per Wall cell, adds a
wall box for the right neighbour and/or the cell below when those are also
Wall; layer 0 gets one full-footprint floor, upper layers one unit floor
per non-Opening cell.  Each emitted segment / tile records the indices of
the loop iteration that emitted it together with the geometric arguments
passed to `createWall` / `createFloor` / `createSmallFloor`. -/

inductive Axis
  | horizontal
  | vertical
deriving DecidableEq

structure WallSegment where
  layerIndex : Nat
  row : Nat
  col : Nat
  axis : Axis
  x : ℚ
  y : ℚ
  z : ℚ
  width : ℚ
  height : ℚ
  depth : ℚ
deriving DecidableEq

/-- The horizontal connector emitted at `(layer li, row ri, col ci)`:
`createWall(ci·cs + cs/2, li·wh + wh/2, -ri·cs, cs, wh, wt)`. -/
def hSegment (li ri ci : Nat) (cs wh wt : ℚ) : WallSegment :=
  ⟨li, ri, ci, .horizontal,
    (ci : ℚ) * cs + cs / 2, (li : ℚ) * wh + wh / 2, -((ri : ℚ) * cs), cs, wh, wt⟩

/-- The vertical connector emitted at `(layer li, row ri, col ci)`:
`createWall(ci·cs, li·wh + wh/2, -(ri·cs + cs/2), wt, wh, cs)`. -/
def vSegment (li ri ci : Nat) (cs wh wt : ℚ) : WallSegment :=
  ⟨li, ri, ci, .vertical,
    (ci : ℚ) * cs, (li : ℚ) * wh + wh / 2, -((ri : ℚ) * cs + cs / 2), wt, wh, cs⟩

/-- The wall segments one cell contributes (the innermost `forEach` body
of `createMaze`): for a Wall cell, a horizontal connector when the right
neighbour exists in the row and is Wall
(`colIndex < row.length - 1 && row[colIndex + 1] === 1`), and a vertical
connector when the row below exists and holds Wall at this column
(`rowIndex < layer.length - 1 && layer[rowIndex + 1][colIndex] === 1`). -/
def cellWallSegs (li ri ci : Nat) (cell : Nat) (row : List Nat) (layer : Grid)
    (cs wh wt : ℚ) : List WallSegment :=
  if cell = 1 then
    (if ci < row.length - 1 ∧ row.get? (ci + 1) = some 1 then
      [hSegment li ri ci cs wh wt] else []) ++
    (if ri < layer.length - 1 ∧ cellAt layer (ri + 1) ci = some 1 then
      [vSegment li ri ci cs wh wt] else [])
  else []

/-- The wall segments one row contributes. -/
def rowWallSegs (li ri : Nat) (row : List Nat) (layer : Grid)
    (cs wh wt : ℚ) : List WallSegment :=
  row.enum.flatMap fun ce => cellWallSegs li ri ce.1 ce.2 row layer cs wh wt

/-- The wall segments one layer contributes. -/
def layerWallSegs (li : Nat) (layer : Grid) (cs wh wt : ℚ) : List WallSegment :=
  layer.enum.flatMap fun re => rowWallSegs li re.1 re.2 layer cs wh wt

/-- The wall segments `MultiLayerMaze.createMaze` emits for a maze stack,
in emission order. -/
def buildWallSegments (stack : List Grid) (cs wh wt : ℚ) : List WallSegment :=
  stack.enum.flatMap fun le => layerWallSegs le.1 le.2 cs wh wt

inductive FloorKind
  | ground
  | unit
deriving DecidableEq

structure FloorTile where
  layerIndex : Nat
  kind : FloorKind
  row : Nat
  col : Nat
  x : ℚ
  y : ℚ
  z : ℚ
  width : ℚ
  height : ℚ
deriving DecidableEq

/-- The full-footprint ground tile of layer 0:
`createFloor(cols·cs, rows·cs, (cols·cs)/2 - cs/2, -wt/2, (-rows·cs)/2 + cs/2)`. -/
def groundTile (l : Grid) (cs wt : ℚ) : FloorTile :=
  ⟨0, .ground, 0, 0,
    ((((l.get? 0).getD []).length : ℚ) * cs) / 2 - cs / 2, -wt / 2,
    (-((l.length : ℚ) * cs)) / 2 + cs / 2,
    (((l.get? 0).getD []).length : ℚ) * cs, (l.length : ℚ) * cs⟩

/-- The unit tile of cell `(ri, ci)` on upper layer `li`:
`createSmallFloor(ci·cs, li·wh, -ri·cs, cs)`. -/
def unitTile (li ri ci : Nat) (cs wh : ℚ) : FloorTile :=
  ⟨li, .unit, ri, ci, (ci : ℚ) * cs, (li : ℚ) * wh, -((ri : ℚ) * cs), cs, cs⟩

/-- The floor tiles one layer contributes: upper layers emit one unit tile
per cell whose value is not `2` (`Opening`); layer 0 emits its single
full-footprint tile. -/
def layerFloorTiles (li : Nat) (layer : Grid) (cs wh wt : ℚ) : List FloorTile :=
  (if 0 < li then
    layer.enum.flatMap fun re =>
      re.2.enum.flatMap fun ce =>
        if ce.2 ≠ 2 then [unitTile li re.1 ce.1 cs wh] else []
  else []) ++
  (if li = 0 then [groundTile layer cs wt] else [])

/-- The floor tiles `MultiLayerMaze.createMaze` emits for a maze stack. -/
def buildFloorTiles (stack : List Grid) (cs wh wt : ℚ) : List FloorTile :=
  stack.enum.flatMap fun le => layerFloorTiles le.1 le.2 cs wh wt

/-- The cell of `stack`'s layer `li` at row `ri`, column `ci`
(`undefined` beyond the stack, the layer or the row). -/
def cellAtStack (stack : List Grid) (li ri ci : Nat) : Option Nat :=
  cellAt ((stack.get? li).getD []) ri ci

/-! ### The resource cache (`ResourceManager`)

Handles are heap object identities, modelled as allocation numbers drawn
from a counter; the mutable fields of the heap objects live in stores
indexed by identity.  The material cache is keyed by the string
`` `${key}-${type}` ``, the geometry caches by the structured content of
their template keys `` `box-${w}-${h}-${d}` `` / `` `plane-${w}-${h}` ``
(both injective in the source, numbers printing uniquely), and the edges
cache by the identity (`uuid`) of the base geometry. -/

/-- The observable state of a `THREE.MeshBasicMaterial` created by
`getMaterial`: color (RGB value), opacity, the `transparent` flag, and
whether `side` is `DoubleSide` (floor) or `FrontSide` (wall). -/
structure MaterialState where
  color : Nat
  opacity : ℚ
  transparent : Bool
  doubleSide : Bool
deriving DecidableEq

/-- The `'wall' | 'floor'` material type parameter. -/
inductive MatType
  | wall
  | floor
deriving DecidableEq

def MatType.str : MatType → String
  | .wall => "wall"
  | .floor => "floor"

/-- Geometry cache keys: `box-…` and `plane-…` template strings. -/
inductive GeomKey
  | box (width height depth : ℚ)
  | plane (width height : ℚ)
deriving DecidableEq

/-- First-match association-list lookup (`Map.get` on unique keys). -/
def lookupEntry {κ : Type _} [DecidableEq κ] : List (κ × Nat) → κ → Option Nat
  | [], _ => none
  | e :: es, k => if e.1 = k then some e.2 else lookupEntry es k

/-- The state of a `ResourceManager`: the four caches and the allocation
counter providing fresh object identities. -/
structure RMState where
  materials : List (String × Nat)
  matStore : Nat → MaterialState
  geometries : List (GeomKey × Nat)
  edgeGeometries : List (Nat × Nat)
  edgeMaterial : Option Nat
  nextId : Nat

/-- A fresh `ResourceManager` (`materials`/`geometries`/`edgeGeometries`
empty, `edgeMaterial` null). -/
def initRM : RMState :=
  ⟨[], fun _ => ⟨0, 1, false, false⟩, [], [], none, 0⟩

/-- `` `${key}-${type}` ``. -/
def materialKey (key : String) (t : MatType) : String := key ++ "-" ++ t.str

/-- `getMaterial(key, type, color, opacity)`: on a missing key a material
is allocated and cached; the cached material's color, opacity and
`transparent` flag are then updated in place and it is returned. -/
def getMaterial (s : RMState) (key : String) (t : MatType) (color : Nat)
    (opacity : ℚ) : Nat × RMState :=
  let mkey := materialKey key t
  let s1 :=
    match lookupEntry s.materials mkey with
    | some _ => s
    | none =>
        { s with
          materials := s.materials ++ [(mkey, s.nextId)],
          matStore := Function.update s.matStore s.nextId
            ⟨color, opacity, decide (opacity < 1), t = MatType.floor⟩,
          nextId := s.nextId + 1 }
  let id := (lookupEntry s1.materials mkey).getD 0
  let old := s1.matStore id
  (id,
    { s1 with
      matStore := Function.update s1.matStore id
        ⟨color, opacity, decide (opacity < 1), old.doubleSide⟩ })

/-- `getBoxGeometry(width, height, depth)`: allocate and cache under the
`box-…` key when missing, then return the cached geometry. -/
def getBoxGeometry (s : RMState) (width height depth : ℚ) : Nat × RMState :=
  let k := GeomKey.box width height depth
  let s1 :=
    match lookupEntry s.geometries k with
    | some _ => s
    | none =>
        { s with geometries := s.geometries ++ [(k, s.nextId)], nextId := s.nextId + 1 }
  ((lookupEntry s1.geometries k).getD 0, s1)

/-- `getPlaneGeometry(width, height)`. -/
def getPlaneGeometry (s : RMState) (width height : ℚ) : Nat × RMState :=
  let k := GeomKey.plane width height
  let s1 :=
    match lookupEntry s.geometries k with
    | some _ => s
    | none =>
        { s with geometries := s.geometries ++ [(k, s.nextId)], nextId := s.nextId + 1 }
  ((lookupEntry s1.geometries k).getD 0, s1)

/-- `getEdgeMaterial()`: lazily allocate the single shared edge material. -/
def getEdgeMaterial (s : RMState) : Nat × RMState :=
  match s.edgeMaterial with
  | some id => (id, s)
  | none => (s.nextId, { s with edgeMaterial := some s.nextId, nextId := s.nextId + 1 })

/-- `getEdgesGeometry(baseGeometry)`: cache keyed by the base geometry's
identity (`uuid`). -/
def getEdgesGeometry (s : RMState) (baseId : Nat) : Nat × RMState :=
  match lookupEntry s.edgeGeometries baseId with
  | some id => (id, s)
  | none =>
      (s.nextId,
        { s with edgeGeometries := s.edgeGeometries ++ [(baseId, s.nextId)],
                 nextId := s.nextId + 1 })

/-- `dispose()`: the identities of every resource the cache-wide disposal
releases (all materials, all geometries, all edges geometries and the edge
material), after which every cache is cleared. -/
def disposeRM (s : RMState) : List Nat × RMState :=
  (s.materials.map Prod.snd ++ s.geometries.map Prod.snd ++
    s.edgeGeometries.map Prod.snd ++ s.edgeMaterial.toList,
   { s with materials := [], geometries := [], edgeGeometries := [], edgeMaterial := none })

/-! ### Scene objects и disposal (`MeshFactory`, `DisposalHelper`)

A scene object carries its optional geometry and material (by identity),
its `userData.sharedGeometry` / `userData.sharedMaterial` tags, and its
children. -/

inductive ObjKind
  | mesh
  | line
  | group
deriving DecidableEq

mutual

/-- A `THREE.Object3D` tree as far as disposal is concerned: its kind, its
optional geometry and material (by identity), its
`userData.sharedGeometry` / `userData.sharedMaterial` tags, and its
children. -/
inductive Obj3D
  | node (kind : ObjKind) (geometry material : Option Nat)
      (sharedGeometry sharedMaterial : Bool) (children : ObjList)

/-- A list of scene objects (`Object3D.children`). -/
inductive ObjList
  | nil
  | cons (o : Obj3D) (os : ObjList)

end

def Obj3D.kind : Obj3D → ObjKind
  | .node k _ _ _ _ _ => k

def Obj3D.geometry : Obj3D → Option Nat
  | .node _ g _ _ _ _ => g

def Obj3D.material : Obj3D → Option Nat
  | .node _ _ m _ _ _ => m

def Obj3D.sharedGeometry : Obj3D → Bool
  | .node _ _ _ sg _ _ => sg

def Obj3D.sharedMaterial : Obj3D → Bool
  | .node _ _ _ _ sm _ => sm

def Obj3D.children : Obj3D → ObjList
  | .node _ _ _ _ _ cs => cs

/-- A resource released by disposal: a geometry or a material identity. -/
inductive Freed
  | geom (id : Nat)
  | mat (id : Nat)
deriving DecidableEq

/-- `DisposalHelper.disposeMesh`: free the geometry unless
`userData.sharedGeometry`, the material unless `userData.sharedMaterial`. -/
def disposeMesh (o : Obj3D) : List Freed :=
  (match o.geometry, o.sharedGeometry with
   | some gid, false => [Freed.geom gid]
   | _, _ => []) ++
  (match o.material, o.sharedMaterial with
   | some mid, false => [Freed.mat mid]
   | _, _ => [])

/-- `DisposalHelper.disposeLine` (same rule as `disposeMesh`). -/
def disposeLine (o : Obj3D) : List Freed := disposeMesh o

/-- The disposals `DisposalHelper.disposeObject` performs on the node
itself: `disposeMesh` for a mesh, `disposeLine` for a line, nothing for
any other object. -/
def disposeOwn (o : Obj3D) : List Freed :=
  match o.kind with
  | .mesh => disposeMesh o
  | .line => disposeLine o
  | .group => []

/-- `DisposalHelper.disposeObject` mapped over a forest of objects in
depth-first order: each node's own disposals, then its children's, then
its right siblings'. -/
def disposeForest : ObjList → List Freed
  | .nil => []
  | .cons (.node k g m sg sm cs) rest =>
      disposeOwn (.node k g m sg sm cs) ++ disposeForest cs ++ disposeForest rest

/-- `DisposalHelper.disposeObject`: dispose a mesh or line node itself,
then recursively every child. -/
def disposeObject (o : Obj3D) : List Freed :=
  disposeForest (.cons o .nil)

/-- `MeshFactory.createWall(params)`: fetch the box geometry and the wall
material from the cache, tag the mesh's `userData` as shared, and wrap it
(with its shared-tagged edge line when `showEdges`) in a group. -/
def createWall (s : RMState) (width height depth : ℚ) (wallColor : Nat)
    (wallOpacity : ℚ) (showEdges : Bool) : Obj3D × RMState :=
  let rg := getBoxGeometry s width height depth
  let rm := getMaterial rg.2 "wall" .wall wallColor wallOpacity
  let wall : Obj3D := .node .mesh (some rg.1) (some rm.1) true true .nil
  if showEdges then
    let re := getEdgesGeometry rm.2 rg.1
    let rem := getEdgeMaterial re.2
    let line : Obj3D := .node .line (some re.1) (some rem.1) true true .nil
    (.node .group none none false false (.cons wall (.cons line .nil)), rem.2)
  else
    (.node .group none none false false (.cons wall .nil), rm.2)

/-- `MeshFactory.createFloor(params)` (plane geometry, floor material,
shared tags, optional shared-tagged edge line). -/
def createFloor (s : RMState) (width height : ℚ) (floorColor : Nat)
    (floorOpacity : ℚ) (showEdges : Bool) : Obj3D × RMState :=
  let rg := getPlaneGeometry s width height
  let rm := getMaterial rg.2 "floor" .floor floorColor floorOpacity
  let floor : Obj3D := .node .mesh (some rg.1) (some rm.1) true true .nil
  if showEdges then
    let re := getEdgesGeometry rm.2 rg.1
    let rem := getEdgeMaterial re.2
    let line : Obj3D := .node .line (some re.1) (some rem.1) true true .nil
    (.node .group none none false false (.cons floor (.cons line .nil)), rem.2)
  else
    (.node .group none none false false (.cons floor .nil), rm.2)

/-- The edge line `Maze.rebuildEdges` builds for a mesh: a fresh
(uncached) `EdgesGeometry` allocation paired with the cache's shared edge
material — with `userData` left untagged, unlike `MeshFactory`'s lines. -/
def rebuildEdgesLine (s : RMState) : Obj3D × RMState :=
  let freshGeom := s.nextId
  let s1 := { s with nextId := s.nextId + 1 }
  let rem := getEdgeMaterial s1
  (.node .line (some freshGeom) (some rem.1) false false .nil, rem.2)

mutual

/-- Every node of an object tree that holds a geometry has it tagged
`sharedGeometry`, and likewise for materials: the tagging discipline of
the `MeshFactory` constructors. -/
inductive AllShared : Obj3D → Prop
  | node (k : ObjKind) (g m : Option Nat) (sg sm : Bool) (cs : ObjList) :
      (g.isSome → sg = true) → (m.isSome → sm = true) →
      AllSharedList cs → AllShared (.node k g m sg sm cs)

/-- `AllShared` over a children list. -/
inductive AllSharedList : ObjList → Prop
  | nil : AllSharedList .nil
  | cons (o : Obj3D) (os : ObjList) :
      AllShared o → AllSharedList os → AllSharedList (.cons o os)

end

/-! ## Lemmas and theorems -/

/-- Appending a new binding to an association list without the key makes
it found. -/
theorem lookupEntry_append_of_none {κ : Type _} [DecidableEq κ]
    (l : List (κ × Nat)) (k : κ) (v : Nat) (h : lookupEntry l k = none) :
    lookupEntry (l ++ [(k, v)]) k = some v := by
  induction l with
  | nil => simp [lookupEntry]
  | cons e es ih =>
    by_cases he : e.1 = k
    · simp [lookupEntry, he] at h
    · simp only [lookupEntry, List.cons_append, if_neg he] at h ⊢
      exact ih h

/-- After `getMaterial`, the material cache holds the returned handle
under the requested key. -/
theorem getMaterial_lookup (s : RMState) (key : String) (t : MatType)
    (c : Nat) (o : ℚ) :
    lookupEntry ((getMaterial s key t c o).2).materials (materialKey key t) =
      some (getMaterial s key t c o).1 := by
  unfold getMaterial
  cases hl : lookupEntry s.materials (materialKey key t) with
  | some id => simp [hl]
  | none => simp [hl, lookupEntry_append_of_none _ _ _ hl]

/-- After `getBoxGeometry`, the geometry cache holds the returned handle
under the `box-…` key. -/
theorem getBoxGeometry_lookup (s : RMState) (w h d : ℚ) :
    lookupEntry ((getBoxGeometry s w h d).2).geometries (GeomKey.box w h d) =
      some (getBoxGeometry s w h d).1 := by
  unfold getBoxGeometry
  cases hl : lookupEntry s.geometries (GeomKey.box w h d) with
  | some id => simp [hl]
  | none => simp [hl, lookupEntry_append_of_none _ _ _ hl]

/-- On a cache hit, `getMaterial` returns the cached identity and only
updates that handle's fields in place. -/
theorem getMaterial_of_lookup (s : RMState) (key : String) (t : MatType)
    (c : Nat) (o : ℚ) (id : Nat)
    (hl : lookupEntry s.materials (materialKey key t) = some id) :
    getMaterial s key t c o =
      (id,
        { s with
          matStore :=
            Function.update s.matStore id
              (MaterialState.mk c o (decide (o < 1)) (s.matStore id).doubleSide) }) := by
  unfold getMaterial
  simp [hl]

/-- C3: on a repeated `getMaterial` with the same key and kind, the second
call returns the same handle identity, allocates nothing (the allocation
counter and the cache are unchanged), and mutates the handle's color,
opacity and `transparent` flag in place to the newly passed values. -/
theorem c3_material_cache_hit_mutates_in_place (s : RMState) (key : String)
    (t : MatType) (c c' : Nat) (o o' : ℚ) :
    ((getMaterial (getMaterial s key t c o).2 key t c' o').1 =
        (getMaterial s key t c o).1) ∧
    ((getMaterial (getMaterial s key t c o).2 key t c' o').2.nextId =
        (getMaterial s key t c o).2.nextId) ∧
    ((getMaterial (getMaterial s key t c o).2 key t c' o').2.materials =
        (getMaterial s key t c o).2.materials) ∧
    ((getMaterial (getMaterial s key t c o).2 key t c' o').2.matStore
        (getMaterial s key t c o).1 =
      MaterialState.mk c' o' (decide (o' < 1))
        (((getMaterial s key t c o).2.matStore (getMaterial s key t c o).1).doubleSide)) := by
  rw [getMaterial_of_lookup _ _ _ c' o' _ (getMaterial_lookup s key t c o)]
  exact ⟨rfl, rfl, rfl, Function.update_same _ _ _⟩

/-- C10 counterexample: the claim says a `get` with zero width, height and
depth fails with `InvalidGeometry` and neither stores nor returns a
handle; instead, `getBoxGeometry(0, 0, 0)` on a fresh manager allocates
handle `0`, stores it in the geometry cache, and returns it (the source
has no failure path at all). -/
theorem c10_counterexample :
    (getBoxGeometry initRM 0 0 0).1 = 0 ∧
    (getBoxGeometry initRM 0 0 0).2.geometries = [(GeomKey.box 0 0 0, 0)] ∧
    (getBoxGeometry initRM 0 0 0).2.nextId = 1 := by
  refine ⟨rfl, rfl, rfl⟩

/-- C10 amended: `getBoxGeometry` performs no dimension validation: for
every dimensions — zero included — and every cache state it stores (when
missing) and returns a cached handle. -/
theorem c10_amended_degenerate_dims_cached (s : RMState) (w h d : ℚ) :
    lookupEntry ((getBoxGeometry s w h d).2).geometries (GeomKey.box w h d) =
      some (getBoxGeometry s w h d).1 :=
  getBoxGeometry_lookup s w h d

/-- At width 2 and height 2, every direction from cell `(1, 1)` fails the
bounds check of `carve`, so the carving loop never alters the grid. -/
theorem carveDirs_two_two (bias : Bias) (O : Nat → List Dir) :
    ∀ (fuel : Nat) (dirs : List Dir) (g : Grid) (k : Nat),
      carveDirs 2 2 bias O fuel 1 1 dirs g k = (g, k) := by
  intro fuel
  induction fuel with
  | zero => intro dirs g k; rfl
  | succ n ih =>
    intro dirs g k
    match dirs with
    | [] => rfl
    | d :: rest =>
      have hstep : carveDirs 2 2 bias O (n + 1) 1 1 (d :: rest) g k =
          carveDirs 2 2 bias O n 1 1 rest g k := by
        cases d <;>
          · simp only [carveDirs, Dir.dx, Dir.dy]
            rw [if_neg (by norm_num)]
      rw [hstep]
      exact ih rest g k

/-- C5 counterexample: the claim says generation at `width < 3` fails with
`InvalidDimension` and returns no maze; instead, at width 2 and height 2
both generators run to completion and return the all-Wall 2×2 grid. -/
theorem c5_counterexample :
    randomizedDepthFirst 2 2 .noEntries .noBias (fun _ => baseDirs) = [[1, 1], [1, 1]] ∧
    randomizedPrims 2 2 .noEntries (fun _ => 0) (fun _ => 0) = [[1, 1], [1, 1]] := by
  refine ⟨by decide, by decide⟩

/-- C5 amended: neither generator validates its dimensions — there is no
failure path.  At width 2 and height 2 (entries `'none'`), both return the
all-Wall 2×2 grid for every bias and every sequence of random choices. -/
theorem c5_amended_no_dimension_validation (bias : Bias) (O : Nat → List Dir)
    (OW ON : Nat → Nat) :
    randomizedDepthFirst 2 2 .noEntries bias O = [[1, 1], [1, 1]] ∧
    randomizedPrims 2 2 .noEntries OW ON = [[1, 1], [1, 1]] := by
  constructor
  · unfold randomizedDepthFirst carve
    dsimp only
    rw [carveDirs_two_two]
    decide
  · unfold randomizedPrims
    dsimp only
    rw [show addWalls 2 2 (setCell (List.replicate 2 (List.replicate 2 1)) 1 1 0) 1 1 [] =
        ([] : List (Nat × Nat)) from rfl]
    rw [show ∀ g k, primsLoop 2 2 OW ON (5 * 2 * 2) [] g k = g from fun g k => rfl]
    decide

/-- C4 (code bug): the `MeshFactory` constructors tag every cache-handed
geometry and material as shared and per-object disposal then frees
nothing — but `Maze.rebuildEdges` hands out the cache's edge material with
`userData` left untagged, so `disposeLine` (reached through
`disposeEdgesFromGroup` on the next edge toggle) frees a material the
cache still holds.  Evaluated from a fresh manager: the rebuilt line
carries edge material `1`, the manager still caches identity `1`, and
`disposeLine` frees it. -/
theorem c4_rebuildEdges_line_disposal_frees_cached_material :
    ((rebuildEdgesLine initRM).2.edgeMaterial = some 1 ∧
      disposeLine (rebuildEdgesLine initRM).1 = [Freed.geom 0, Freed.mat 1]) ∧
    (AllShared (createWall initRM 1 1 1 128 1 true).1 ∧
      disposeObject (createWall initRM 1 1 1 128 1 true).1 = []) := by
  refine ⟨⟨rfl, rfl⟩, ?_, by decide⟩
  rw [show (createWall initRM 1 1 1 128 1 true).1 =
      Obj3D.node .group none none false false
        (.cons (.node .mesh (some 0) (some 1) true true .nil)
          (.cons (.node .line (some 2) (some 3) true true .nil) .nil)) from rfl]
  exact AllShared.node _ _ _ _ _ _ (by simp) (by simp)
    (.cons _ _ (AllShared.node _ _ _ _ _ _ (fun _ => rfl) (fun _ => rfl) .nil)
      (.cons _ _ (AllShared.node _ _ _ _ _ _ (fun _ => rfl) (fun _ => rfl) .nil) .nil))

/-- A fold whose step ignores its second argument is constant. -/
theorem foldl_fixed_of_step {α β : Type _} (f : α → β → α) (h : ∀ a b, f a b = a) :
    ∀ (l : List β) (a : α), l.foldl f a = a := by
  intro l
  induction l with
  | nil => intro a; rfl
  | cons b bs ih => intro a; rw [List.foldl_cons, h a b]; exact ih a

/-- A fold that appends two per-element contributions accumulates their
concatenations. -/
theorem foldl_append_pair {α β : Type _} (f g : β → List α) :
    ∀ (l : List β) (acc : List α × List α),
      l.foldl (fun a b => (a.1 ++ f b, a.2 ++ g b)) acc =
        (acc.1 ++ l.flatMap f, acc.2 ++ l.flatMap g) := by
  intro l
  induction l with
  | nil => intro acc; simp
  | cons b bs ih =>
    intro acc
    rw [List.foldl_cons, ih]
    simp

/-- `filterMap` distributes over `flatMap`. -/
theorem filterMap_flatMap {α β γ : Type _} (f : β → Option γ) (g : α → List β) :
    ∀ l : List α, (l.flatMap g).filterMap f = l.flatMap (fun a => (g a).filterMap f) := by
  intro l
  induction l with
  | nil => rfl
  | cons a as ih => simp [List.flatMap_cons, List.filterMap_append, ih]

/-- `filter` distributes over `flatMap`. -/
theorem filter_flatMap {α β : Type _} (p : β → Bool) (g : α → List β) :
    ∀ l : List α, (l.flatMap g).filter p = l.flatMap (fun a => (g a).filter p) := by
  intro l
  induction l with
  | nil => rfl
  | cons a as ih => simp [List.flatMap_cons, List.filter_append, ih]

/-- The per-cell contribution of the marker scan to the `paths` list. -/
def pathContribution (l : Grid) (r c : Nat) : List MarkerCell :=
  if cellAt l r c = some 0 then [⟨r, c⟩] else []

/-- The per-cell contribution of the marker scan to the `boundary` list. -/
def boundaryContribution (l : Grid) (rows cols r c : Nat) : List MarkerCell :=
  if cellAt l r c = some 0 then
    (if r = 0 ∨ r = rows - 1 ∨ c = 0 ∨ c = cols - 1 then [⟨r, c⟩] else [])
  else []

theorem markerScanStep_eq (l : Grid) (rows cols : Nat)
    (acc : List MarkerCell × List MarkerCell) (r c : Nat) :
    markerScanStep l rows cols acc r c =
      (acc.1 ++ pathContribution l r c,
       acc.2 ++ boundaryContribution l rows cols r c) := by
  by_cases hp : cellAt l r c = some 0 <;>
    by_cases hb : r = 0 ∨ r = rows - 1 ∨ c = 0 ∨ c = cols - 1 <;>
      simp [markerScanStep, pathContribution, boundaryContribution, hp, hb]

/-- The scan loop of `computeMarkersFromLayer` produces exactly the
row-major `paths` and `boundary` lists. -/
theorem markerScan_eq (l : Grid) (rows cols : Nat) :
    markerScan l rows cols = (pathsInOrder l rows cols, boundaryInOrder l rows cols) := by
  have hstep : ∀ acc r, (List.range cols).foldl
      (fun a c => markerScanStep l rows cols a r c) acc =
      (acc.1 ++ (List.range cols).flatMap (pathContribution l r),
       acc.2 ++ (List.range cols).flatMap (boundaryContribution l rows cols r)) := by
    intro acc r
    have : (fun (a : List MarkerCell × List MarkerCell) c => markerScanStep l rows cols a r c) =
        (fun a c => (a.1 ++ pathContribution l r c,
          a.2 ++ boundaryContribution l rows cols r c)) := by
      funext a c
      exact markerScanStep_eq l rows cols a r c
    rw [this, foldl_append_pair]
  have houter : markerScan l rows cols =
      ((List.range rows).flatMap
        (fun r => (List.range cols).flatMap (pathContribution l r)),
       (List.range rows).flatMap
        (fun r => (List.range cols).flatMap (boundaryContribution l rows cols r))) := by
    unfold markerScan
    have : (fun (acc : List MarkerCell × List MarkerCell) row =>
        (List.range cols).foldl (fun a col => markerScanStep l rows cols a row col) acc) =
        (fun acc r => (acc.1 ++ (List.range cols).flatMap (pathContribution l r),
          acc.2 ++ (List.range cols).flatMap (boundaryContribution l rows cols r))) := by
      funext acc r
      exact hstep acc r
    rw [this, foldl_append_pair]
    simp
  rw [houter]
  have hpaths : pathsInOrder l rows cols =
      (List.range rows).flatMap (fun r => (List.range cols).flatMap (pathContribution l r)) := by
    unfold pathsInOrder scanOrder
    rw [filterMap_flatMap]
    congr 1
    funext r
    rw [List.filterMap_map]
    induction List.range cols with
    | nil => rfl
    | cons c cs ih =>
      simp only [List.filterMap_cons, List.flatMap_cons, Function.comp]
      by_cases hp : cellAt l r c = some 0
      · simp only [pathContribution, if_pos hp, ih]
        rfl
      · simp only [pathContribution, if_neg hp, ih]
        rfl
  have hbound : boundaryInOrder l rows cols =
      (List.range rows).flatMap
        (fun r => (List.range cols).flatMap (boundaryContribution l rows cols r)) := by
    unfold boundaryInOrder
    rw [hpaths, filter_flatMap]
    congr 1
    funext r
    rw [filter_flatMap]
    congr 1
    funext c
    by_cases hp : cellAt l r c = some 0 <;>
      by_cases hb : r = 0 ∨ r = rows - 1 ∨ c = 0 ∨ c = cols - 1 <;>
        simp [pathContribution, boundaryContribution, hp, hb]
  rw [hpaths, hbound]

/-- A layer with a readable cell is non-empty. -/
theorem ne_nil_of_cellAt {l : Grid} {y x v : Nat} (h : cellAt l y x = some v) :
    l ≠ [] := by
  intro he
  rw [he] at h
  simp [cellAt] at h

/-- C6 counterexample: the claim says the locator returns `null` for a
layer with no Path cell; on the all-Wall 3×3 layer it instead returns a
(non-null) marker record whose `start` and `end` fields are both `null`. -/
theorem c6_counterexample :
    computeMarkersFromLayer (some [[1, 1, 1], [1, 1, 1], [1, 1, 1]]) =
        some ⟨none, none⟩ ∧
      computeMarkersFromLayer (some [[1, 1, 1], [1, 1, 1], [1, 1, 1]]) ≠ none := by
  refine ⟨by decide, by decide⟩

/-- C6 amended: for every non-empty layer that contains no Path cell, the
locator returns the record `{start: null, end: null}` — `null` itself is
returned only for a missing or empty layer. -/
theorem c6_amended_no_path_cell_null_fields (l : Grid) (hne : l ≠ [])
    (hnopath : ∀ y x, cellAt l y x ≠ some 0) :
    computeMarkersFromLayer (some l) = some ⟨none, none⟩ ∧
      computeMarkersFromLayer none = none := by
  refine ⟨?_, rfl⟩
  have hp : pathsInOrder l l.length (((l.get? 0).getD []).length) = [] := by
    apply List.filterMap_eq_nil_iff.mpr
    intro p _
    rw [if_neg (hnopath p.1 p.2)]
  have hb : boundaryInOrder l l.length (((l.get? 0).getD []).length) = [] := by
    unfold boundaryInOrder
    rw [hp]
    rfl
  simp only [computeMarkersFromLayer]
  rw [if_neg (by simpa using hne)]
  rw [markerScan_eq, hp, hb]
  rfl

/-- C7: for every rectangular layer containing a Path cell, the locator
returns `start` = the first boundary Path cell in row-major order when one
exists, else the first Path cell; and `end` = the last boundary Path cell
when there are at least two, else the last Path cell when there are at
least two Path cells, else `start`. -/
theorem c7_marker_selection (l : Grid) (cols : Nat)
    (hrect : ∀ r ∈ l, r.length = cols)
    (hpath : ∃ y x, cellAt l y x = some 0) :
    computeMarkersFromLayer (some l) =
      some ⟨(if boundaryInOrder l l.length cols = []
             then (pathsInOrder l l.length cols).head?
             else (boundaryInOrder l l.length cols).head?),
            (if 1 < (boundaryInOrder l l.length cols).length
             then (boundaryInOrder l l.length cols).getLast?
             else if 1 < (pathsInOrder l l.length cols).length
             then (pathsInOrder l l.length cols).getLast?
             else (if boundaryInOrder l l.length cols = []
                   then (pathsInOrder l l.length cols).head?
                   else (boundaryInOrder l l.length cols).head?))⟩ := by
  obtain ⟨y, x, hc⟩ := hpath
  have hne : l ≠ [] := ne_nil_of_cellAt hc
  obtain ⟨r0, lt, hl⟩ := List.exists_cons_of_ne_nil hne
  have hcols : ((l.get? 0).getD []).length = cols := by
    rw [hl]
    simpa using hrect r0 (by rw [hl]; exact List.mem_cons_self r0 lt)
  simp only [computeMarkersFromLayer]
  rw [if_neg (by simpa using hne)]
  rw [markerScan_eq, hcols]
  set P := pathsInOrder l l.length cols with hP
  set B := boundaryInOrder l l.length cols with hB
  by_cases hbe : B = []
  · have hlen : ¬ 1 < B.length := by rw [hbe]; simp
    simp [hbe, hlen]
  · have hh : B.head? ≠ none := fun h => hbe (List.head?_eq_none_iff.mp h)
    by_cases hlen : 1 < B.length
    · have hlast : B.getLast? ≠ none := by
        intro h
        rw [List.getLast?_eq_none_iff.mp h] at hlen
        simp at hlen
      simp [hbe, hlen, hh, hlast]
    · simp [hbe, hlen, hh]

/-- Membership in a `flatMap` over an enumerated list, phrased through
`get?`. -/
theorem mem_enum_flatMap {α β : Type _} (f : Nat × α → List β) (l : List α) (b : β) :
    b ∈ l.enum.flatMap f ↔
      ∃ i a, l.get? i = some a ∧ b ∈ f (i, a) := by
  rw [List.mem_flatMap]
  constructor
  · rintro ⟨⟨i, a⟩, hmem, hb⟩
    refine ⟨i, a, ?_, hb⟩
    rw [List.get?_eq_getElem?]
    exact List.mk_mem_enum_iff_getElem?.mp hmem
  · rintro ⟨i, a, hget, hb⟩
    refine ⟨(i, a), ?_, hb⟩
    rw [List.get?_eq_getElem?] at hget
    exact List.mk_mem_enum_iff_getElem?.mpr hget

/-- Reading a cell succeeds exactly when its row exists in the layer and
the column exists in that row. -/
theorem cellAt_eq_some {layer : Grid} {ri ci v : Nat} :
    cellAt layer ri ci = some v ↔
      ∃ row, layer.get? ri = some row ∧ row.get? ci = some v := by
  unfold cellAt
  cases h : layer.get? ri <;> simp [h]

/-- The members of a cell's wall-segment contribution. -/
theorem mem_cellWallSegs {s : WallSegment} {li ri ci cell : Nat}
    {row : List Nat} {layer : Grid} {cs wh wt : ℚ} :
    s ∈ cellWallSegs li ri ci cell row layer cs wh wt ↔
      cell = 1 ∧
        ((s = hSegment li ri ci cs wh wt ∧
            ci < row.length - 1 ∧ row.get? (ci + 1) = some 1) ∨
         (s = vSegment li ri ci cs wh wt ∧
            ri < layer.length - 1 ∧ cellAt layer (ri + 1) ci = some 1)) := by
  unfold cellWallSegs
  by_cases hc : cell = 1
  · rw [if_pos hc]
    by_cases h1 : ci < row.length - 1 ∧ row.get? (ci + 1) = some 1 <;>
      by_cases h2 : ri < layer.length - 1 ∧ cellAt layer (ri + 1) ci = some 1 <;>
        simp [h1, h2, hc] <;> tauto
  · simp [hc]

/-- Characterization of the emitted wall segments: a segment is in the
output exactly when it is the horizontal or vertical connector of a Wall
cell whose right / below neighbour exists and is Wall. -/
theorem mem_buildWallSegments {stack : List Grid} {cs wh wt : ℚ} {s : WallSegment} :
    s ∈ buildWallSegments stack cs wh wt ↔
      ∃ li ri ci,
        ((s = hSegment li ri ci cs wh wt ∧
            cellAtStack stack li ri ci = some 1 ∧
            cellAtStack stack li ri (ci + 1) = some 1) ∨
         (s = vSegment li ri ci cs wh wt ∧
            cellAtStack stack li ri ci = some 1 ∧
            cellAtStack stack li (ri + 1) ci = some 1)) := by
  unfold buildWallSegments layerWallSegs rowWallSegs
  rw [mem_enum_flatMap]
  constructor
  · rintro ⟨li, layer, hlay, hmem⟩
    rw [mem_enum_flatMap] at hmem
    obtain ⟨ri, row, hrow, hmem⟩ := hmem
    dsimp only at hrow hmem
    rw [mem_enum_flatMap] at hmem
    obtain ⟨ci, cell, hcell, hmem⟩ := hmem
    dsimp only at hcell hmem
    rw [mem_cellWallSegs] at hmem
    obtain ⟨hc1, hbr⟩ := hmem
    have hself : cellAtStack stack li ri ci = some 1 := by
      unfold cellAtStack
      rw [hlay, Option.getD_some, cellAt_eq_some]
      exact ⟨row, hrow, by rw [hcell, hc1]⟩
    rcases hbr with ⟨hs, _, hr⟩ | ⟨hs, _, hb⟩
    · refine ⟨li, ri, ci, Or.inl ⟨hs, hself, ?_⟩⟩
      unfold cellAtStack
      rw [hlay, Option.getD_some, cellAt_eq_some]
      exact ⟨row, hrow, hr⟩
    · refine ⟨li, ri, ci, Or.inr ⟨hs, hself, ?_⟩⟩
      unfold cellAtStack
      rw [hlay, Option.getD_some]
      exact hb
  · rintro ⟨li, ri, ci, hbr⟩
    have hself : cellAtStack stack li ri ci = some 1 := by
      rcases hbr with ⟨_, h, _⟩ | ⟨_, h, _⟩ <;> exact h
    obtain ⟨layer, hlay⟩ : ∃ layer, stack.get? li = some layer := by
      cases h : stack.get? li with
      | some layer => exact ⟨layer, rfl⟩
      | none =>
        unfold cellAtStack at hself
        rw [h] at hself
        simp [cellAt] at hself
    have hself' : cellAt layer ri ci = some 1 := by
      unfold cellAtStack at hself
      rwa [hlay, Option.getD_some] at hself
    obtain ⟨row, hrow, hcol⟩ := cellAt_eq_some.mp hself'
    refine ⟨li, layer, hlay, ?_⟩
    rw [mem_enum_flatMap]
    refine ⟨ri, row, hrow, ?_⟩
    dsimp only
    rw [mem_enum_flatMap]
    refine ⟨ci, 1, hcol, ?_⟩
    rw [mem_cellWallSegs]
    dsimp only
    refine ⟨rfl, ?_⟩
    rcases hbr with ⟨hs, _, hr⟩ | ⟨hs, _, hb⟩
    · left
      have hr' : row.get? (ci + 1) = some 1 := by
        have : cellAt layer ri (ci + 1) = some 1 := by
          unfold cellAtStack at hr
          rwa [hlay, Option.getD_some] at hr
        obtain ⟨row', hrow', hcol'⟩ := cellAt_eq_some.mp this
        rw [hrow] at hrow'
        cases hrow'
        exact hcol'
      have hlen : ci + 1 < row.length := (List.get?_eq_some.mp hr').1
      exact ⟨hs, by omega, hr'⟩
    · right
      have hb' : cellAt layer (ri + 1) ci = some 1 := by
        unfold cellAtStack at hb
        rwa [hlay, Option.getD_some] at hb
      obtain ⟨row', hrow', _⟩ := cellAt_eq_some.mp hb'
      have hlen : ri + 1 < layer.length := (List.get?_eq_some.mp hrow').1
      exact ⟨hs, by omega, hb'⟩

/-- Two horizontal connectors coincide exactly when their indices do. -/
theorem hSegment_eq_iff {li ri ci li' ri' ci' : Nat} {cs wh wt : ℚ} :
    hSegment li ri ci cs wh wt = hSegment li' ri' ci' cs wh wt ↔
      li = li' ∧ ri = ri' ∧ ci = ci' := by
  constructor
  · intro h
    exact ⟨congrArg WallSegment.layerIndex h, congrArg WallSegment.row h,
      congrArg WallSegment.col h⟩
  · rintro ⟨rfl, rfl, rfl⟩
    rfl

/-- Two vertical connectors coincide exactly when their indices do. -/
theorem vSegment_eq_iff {li ri ci li' ri' ci' : Nat} {cs wh wt : ℚ} :
    vSegment li ri ci cs wh wt = vSegment li' ri' ci' cs wh wt ↔
      li = li' ∧ ri = ri' ∧ ci = ci' := by
  constructor
  · intro h
    exact ⟨congrArg WallSegment.layerIndex h, congrArg WallSegment.row h,
      congrArg WallSegment.col h⟩
  · rintro ⟨rfl, rfl, rfl⟩
    rfl

/-- A horizontal connector is never a vertical connector. -/
theorem hSegment_ne_vSegment {li ri ci li' ri' ci' : Nat} {cs wh wt cs' wh' wt' : ℚ} :
    hSegment li ri ci cs wh wt ≠ vSegment li' ri' ci' cs' wh' wt' :=
  fun h => Axis.noConfusion (congrArg WallSegment.axis h)

/-- C2: segment building emits the horizontal connector at a cell iff the
cell is Wall and its right neighbour exists and is Wall, and the vertical
connector iff the cell is Wall and the cell below exists and is Wall; a
Wall cell with no Wall neighbour to its right or below contributes zero
segments. -/
theorem c2_wall_connectors_iff (stack : List Grid) (cs wh wt : ℚ) (li ri ci : Nat) :
    (hSegment li ri ci cs wh wt ∈ buildWallSegments stack cs wh wt ↔
      cellAtStack stack li ri ci = some 1 ∧ cellAtStack stack li ri (ci + 1) = some 1) ∧
    (vSegment li ri ci cs wh wt ∈ buildWallSegments stack cs wh wt ↔
      cellAtStack stack li ri ci = some 1 ∧ cellAtStack stack li (ri + 1) ci = some 1) ∧
    (cellAtStack stack li ri (ci + 1) ≠ some 1 →
      cellAtStack stack li (ri + 1) ci ≠ some 1 →
      ∀ s ∈ buildWallSegments stack cs wh wt,
        ¬(s.layerIndex = li ∧ s.row = ri ∧ s.col = ci)) := by
  refine ⟨?_, ?_, ?_⟩
  · rw [mem_buildWallSegments]
    constructor
    · rintro ⟨li', ri', ci', ⟨hs, h1, h2⟩ | ⟨hs, _, _⟩⟩
      · obtain ⟨rfl, rfl, rfl⟩ := hSegment_eq_iff.mp hs
        exact ⟨h1, h2⟩
      · exact absurd hs hSegment_ne_vSegment
    · intro h
      exact ⟨li, ri, ci, Or.inl ⟨rfl, h.1, h.2⟩⟩
  · rw [mem_buildWallSegments]
    constructor
    · rintro ⟨li', ri', ci', ⟨hs, _, _⟩ | ⟨hs, h1, h2⟩⟩
      · exact absurd hs.symm hSegment_ne_vSegment
      · obtain ⟨rfl, rfl, rfl⟩ := vSegment_eq_iff.mp hs
        exact ⟨h1, h2⟩
    · intro h
      exact ⟨li, ri, ci, Or.inr ⟨rfl, h.1, h.2⟩⟩
  · intro hr hb s hs hidx
    obtain ⟨li', ri', ci', hcase⟩ := mem_buildWallSegments.mp hs
    rcases hcase with ⟨hseq, _, h2⟩ | ⟨hseq, _, h2⟩
    · have h1 : s.layerIndex = li' := by rw [hseq]; rfl
      have h2' : s.row = ri' := by rw [hseq]; rfl
      have h3 : s.col = ci' := by rw [hseq]; rfl
      rw [hidx.1] at h1
      rw [hidx.2.1] at h2'
      rw [hidx.2.2] at h3
      rw [← h1, ← h2', ← h3] at h2
      exact hr h2
    · have h1 : s.layerIndex = li' := by rw [hseq]; rfl
      have h2' : s.row = ri' := by rw [hseq]; rfl
      have h3 : s.col = ci' := by rw [hseq]; rfl
      rw [hidx.1] at h1
      rw [hidx.2.1] at h2'
      rw [hidx.2.2] at h3
      rw [← h1, ← h2', ← h3] at h2
      exact hb h2

/-- Counting in a `flatMap` over an enumeration whose contributions
vanish away from a single target index. -/
theorem count_enumFrom_flatMap {α β : Type _} [DecidableEq β] (b : β)
    (F : Nat × α → List β) (target : Nat)
    (hF : ∀ p : Nat × α, p.1 ≠ target → (F p).count b = 0) :
    ∀ (l : List α) (n : Nat),
      ((List.enumFrom n l).flatMap F).count b =
        if n ≤ target then
          ((l.get? (target - n)).map (fun a => (F (target, a)).count b)).getD 0
        else 0 := by
  intro l
  induction l with
  | nil =>
    intro n
    by_cases h : n ≤ target <;> simp [h]
  | cons a as ih =>
    intro n
    rw [List.enumFrom_cons]
    simp only [List.flatMap_cons, List.count_append]
    rw [ih (n + 1)]
    by_cases h : n = target
    · subst h
      rw [if_pos le_rfl, if_neg (by omega), Nat.sub_self]
      simp
    · rw [hF (n, a) h]
      by_cases h2 : n ≤ target
      · rw [if_pos (by omega : n + 1 ≤ target), if_pos h2]
        have hsub : target - n = (target - (n + 1)) + 1 := by omega
        rw [hsub, List.get?_cons_succ]
        simp
      · rw [if_neg h2, if_neg (by omega)]

/-- Two unit tiles coincide exactly when their indices do. -/
theorem unitTile_eq_iff {li ri ci li' ri' ci' : Nat} {cs wh : ℚ} :
    unitTile li ri ci cs wh = unitTile li' ri' ci' cs wh ↔
      li = li' ∧ ri = ri' ∧ ci = ci' := by
  constructor
  · intro h
    exact ⟨congrArg FloorTile.layerIndex h, congrArg FloorTile.row h,
      congrArg FloorTile.col h⟩
  · rintro ⟨rfl, rfl, rfl⟩
    rfl

/-- A unit tile is never the ground tile. -/
theorem unitTile_ne_groundTile {li ri ci : Nat} {cs wh wt cs' : ℚ} {l : Grid} :
    unitTile li ri ci cs wh ≠ groundTile l cs' wt :=
  fun h => FloorKind.noConfusion (congrArg FloorTile.kind h)

/-- The members of one layer's floor-tile contribution. -/
theorem mem_layerFloorTiles {t : FloorTile} {li : Nat} {layer : Grid} {cs wh wt : ℚ} :
    t ∈ layerFloorTiles li layer cs wh wt ↔
      (0 < li ∧ ∃ ri ci v, cellAt layer ri ci = some v ∧ v ≠ 2 ∧
        t = unitTile li ri ci cs wh) ∨
      (li = 0 ∧ t = groundTile layer cs wt) := by
  unfold layerFloorTiles
  rw [List.mem_append]
  by_cases h0 : 0 < li
  · rw [if_pos h0, if_neg (by omega : ¬ li = 0)]
    simp only [List.not_mem_nil, or_false]
    constructor
    · intro hm
      refine Or.inl ⟨h0, ?_⟩
      rw [mem_enum_flatMap] at hm
      obtain ⟨ri, row, hrow, hm⟩ := hm
      rw [mem_enum_flatMap] at hm
      obtain ⟨ci, cell, hcell, hm⟩ := hm
      dsimp only at hm
      by_cases hc : cell ≠ 2
      · rw [if_pos hc] at hm
        refine ⟨ri, ci, cell, ?_, hc, List.mem_singleton.mp hm⟩
        rw [cellAt_eq_some]
        exact ⟨row, hrow, hcell⟩
      · rw [if_neg hc] at hm
        exact absurd hm (List.not_mem_nil t)
    · rintro (⟨_, ri, ci, v, hcv, hv, ht⟩ | ⟨h00, _⟩)
      · obtain ⟨row, hrow, hcol⟩ := cellAt_eq_some.mp hcv
        rw [mem_enum_flatMap]
        refine ⟨ri, row, hrow, ?_⟩
        dsimp only
        rw [mem_enum_flatMap]
        refine ⟨ci, v, hcol, ?_⟩
        dsimp only
        rw [if_pos hv]
        exact List.mem_singleton.mpr ht
      · omega
  · have h00 : li = 0 := by omega
    subst h00
    rw [if_neg (by omega), if_pos rfl]
    simp

/-- The members of the emitted floor-tile list: one unit tile per
existing non-Opening cell of each upper layer, and the ground tile of
layer 0. -/
theorem mem_buildFloorTiles {stack : List Grid} {cs wh wt : ℚ} {t : FloorTile} :
    t ∈ buildFloorTiles stack cs wh wt ↔
      (∃ li ri ci v, 0 < li ∧ cellAtStack stack li ri ci = some v ∧ v ≠ 2 ∧
        t = unitTile li ri ci cs wh) ∨
      (∃ l0, stack.get? 0 = some l0 ∧ t = groundTile l0 cs wt) := by
  unfold buildFloorTiles
  rw [mem_enum_flatMap]
  constructor
  · rintro ⟨li, layer, hlay, hm⟩
    dsimp only at hm
    rcases mem_layerFloorTiles.mp hm with ⟨h0, ri, ci, v, hcv, hv, ht⟩ | ⟨h0, ht⟩
    · left
      refine ⟨li, ri, ci, v, h0, ?_, hv, ht⟩
      unfold cellAtStack
      rw [hlay, Option.getD_some]
      exact hcv
    · right
      subst h0
      exact ⟨layer, hlay, ht⟩
  · rintro (⟨li, ri, ci, v, h0, hcv, hv, ht⟩ | ⟨l0, hlay, ht⟩)
    · obtain ⟨layer, hlay⟩ : ∃ layer, stack.get? li = some layer := by
        cases h : stack.get? li with
        | some layer => exact ⟨layer, rfl⟩
        | none =>
          unfold cellAtStack at hcv
          rw [h] at hcv
          simp [cellAt] at hcv
      refine ⟨li, layer, hlay, ?_⟩
      dsimp only
      rw [mem_layerFloorTiles]
      left
      refine ⟨h0, ri, ci, v, ?_, hv, ht⟩
      unfold cellAtStack at hcv
      rwa [hlay, Option.getD_some] at hcv
    · exact ⟨0, l0, hlay, mem_layerFloorTiles.mpr (Or.inr ⟨rfl, ht⟩)⟩

/-- The number of copies of a given unit tile one layer contributes:
one when the layer is an upper layer and the cell exists with a
non-Opening value, zero otherwise. -/
theorem count_unit_layerFloorTiles (li ri ci : Nat) (layer : Grid) (cs wh wt : ℚ) :
    (layerFloorTiles li layer cs wh wt).count (unitTile li ri ci cs wh) =
      if 0 < li ∧ cellAt layer ri ci ≠ none ∧ cellAt layer ri ci ≠ some 2
      then 1 else 0 := by
  by_cases h0 : 0 < li
  · unfold layerFloorTiles
    rw [if_pos h0, if_neg (by omega : ¬ li = 0), List.count_append]
    have hrow : ∀ p : Nat × List Nat, p.1 ≠ ri →
        ((fun (re : Nat × List Nat) => re.2.enum.flatMap fun ce =>
          if ce.2 ≠ 2 then [unitTile li re.1 ce.1 cs wh] else []) p).count
            (unitTile li ri ci cs wh) = 0 := by
      rintro ⟨ri', row⟩ hne
      apply List.count_eq_zero_of_not_mem
      intro hm
      dsimp only at hm
      rw [mem_enum_flatMap] at hm
      obtain ⟨ci', cell, _, hm⟩ := hm
      dsimp only at hm
      by_cases hc : cell ≠ 2
      · rw [if_pos hc] at hm
        exact hne (unitTile_eq_iff.mp (List.mem_singleton.mp hm).symm).2.1
      · rw [if_neg hc] at hm
        exact List.not_mem_nil _ hm
    rw [show (List.enum layer).flatMap (fun (re : Nat × List Nat) =>
        re.2.enum.flatMap fun ce =>
        if ce.2 ≠ 2 then [unitTile li re.1 ce.1 cs wh] else []) =
        (List.enumFrom 0 layer).flatMap (fun (re : Nat × List Nat) =>
        re.2.enum.flatMap fun ce =>
        if ce.2 ≠ 2 then [unitTile li re.1 ce.1 cs wh] else []) from rfl]
    rw [count_enumFrom_flatMap _ _ ri hrow layer 0, if_pos (Nat.zero_le ri), Nat.sub_zero]
    cases hr : layer.get? ri with
    | none =>
      have hcell : cellAt layer ri ci = none := by
        unfold cellAt
        rw [hr]
        rfl
      simp [hcell]
    | some row =>
      have hcol : ∀ p : Nat × Nat, p.1 ≠ ci →
          ((fun (ce : Nat × Nat) => if ce.2 ≠ 2 then [unitTile li ri ce.1 cs wh] else []) p).count
            (unitTile li ri ci cs wh) = 0 := by
        rintro ⟨ci', cell⟩ hne
        apply List.count_eq_zero_of_not_mem
        intro hm
        dsimp only at hm
        by_cases hc : cell ≠ 2
        · rw [if_pos hc] at hm
          exact hne (unitTile_eq_iff.mp (List.mem_singleton.mp hm).symm).2.2
        · rw [if_neg hc] at hm
          exact List.not_mem_nil _ hm
      rw [Option.map_some', Option.getD_some]
      dsimp only
      rw [show row.enum.flatMap (fun (ce : Nat × Nat) =>
          if ce.2 ≠ 2 then [unitTile li ri ce.1 cs wh] else []) =
          (List.enumFrom 0 row).flatMap (fun (ce : Nat × Nat) =>
          if ce.2 ≠ 2 then [unitTile li ri ce.1 cs wh] else []) from rfl]
      rw [count_enumFrom_flatMap _ _ ci hcol row 0, if_pos (Nat.zero_le ci), Nat.sub_zero]
      have hcell : cellAt layer ri ci = row.get? ci := by
        unfold cellAt
        rw [hr]
        rfl
      cases hc : row.get? ci with
      | none =>
        have hfalse : ¬ (0 < li ∧ cellAt layer ri ci ≠ none ∧
            cellAt layer ri ci ≠ some 2) := by
          rw [hcell, hc]
          simp
        rw [if_neg hfalse]
        simp
      | some cell =>
        rw [Option.map_some', Option.getD_some]
        dsimp only
        by_cases h2 : cell ≠ 2
        · rw [if_pos h2]
          have : 0 < li ∧ cellAt layer ri ci ≠ none ∧ cellAt layer ri ci ≠ some 2 := by
            refine ⟨h0, ?_, ?_⟩ <;> rw [hcell, hc] <;> simp [h2]
          rw [if_pos this]
          simp
        · rw [if_neg h2]
          have : ¬ (0 < li ∧ cellAt layer ri ci ≠ none ∧ cellAt layer ri ci ≠ some 2) := by
            intro hcontra
            apply hcontra.2.2
            rw [hcell, hc]
            simpa using h2
          rw [if_neg this]
          rfl
  · have h00 : li = 0 := by omega
    subst h00
    rw [if_neg (by simp)]
    unfold layerFloorTiles
    rw [if_neg (by omega), if_pos rfl]
    apply List.count_eq_zero_of_not_mem
    intro hm
    rw [List.nil_append, List.mem_singleton] at hm
    exact unitTile_ne_groundTile hm

/-- C9: for every maze stack, layer 0 emits exactly one floor tile — the
full-footprint ground tile — and every layer above emits exactly one unit
tile per cell that exists and is not `Opening` (`2`); `Opening` cells emit
no tile. -/
theorem c9_floor_tiles (l0 : Grid) (rest : List Grid) (cs wh wt : ℚ)
    (li ri ci : Nat) :
    ((buildFloorTiles (l0 :: rest) cs wh wt).count (groundTile l0 cs wt) = 1) ∧
    (∀ t ∈ buildFloorTiles (l0 :: rest) cs wh wt, t.layerIndex = 0 →
      t = groundTile l0 cs wt) ∧
    ((buildFloorTiles (l0 :: rest) cs wh wt).count (unitTile li ri ci cs wh) =
      if 0 < li ∧ cellAtStack (l0 :: rest) li ri ci ≠ none ∧
          cellAtStack (l0 :: rest) li ri ci ≠ some 2 then 1 else 0) := by
  refine ⟨?_, ?_, ?_⟩
  · have hgF : ∀ p : Nat × Grid, p.1 ≠ 0 →
        ((fun (le : Nat × Grid) => layerFloorTiles le.1 le.2 cs wh wt) p).count
          (groundTile l0 cs wt) = 0 := by
      rintro ⟨n, layer⟩ hne
      apply List.count_eq_zero_of_not_mem
      intro hm
      dsimp only at hm
      rcases mem_layerFloorTiles.mp hm with ⟨_, _, _, _, _, _, ht⟩ | ⟨h0, _⟩
      · exact unitTile_ne_groundTile ht.symm
      · exact hne h0
    rw [show buildFloorTiles (l0 :: rest) cs wh wt =
        (List.enumFrom 0 (l0 :: rest)).flatMap
          (fun (le : Nat × Grid) => layerFloorTiles le.1 le.2 cs wh wt) from rfl]
    rw [count_enumFrom_flatMap _ _ 0 hgF (l0 :: rest) 0, if_pos le_rfl, Nat.sub_zero,
      List.get?_cons_zero, Option.map_some', Option.getD_some]
    dsimp only
    unfold layerFloorTiles
    rw [if_neg (by omega), if_pos rfl, List.nil_append]
    simp
  · intro t hm h0
    rcases mem_buildFloorTiles.mp hm with ⟨li', _, _, _, hpos, _, _, ht⟩ | ⟨l0', hl, ht⟩
    · rw [ht] at h0
      exact absurd h0 (by simpa [unitTile] using Nat.pos_iff_ne_zero.mp hpos)
    · rw [List.get?_cons_zero] at hl
      rw [ht, Option.some.inj hl]
  · have huF : ∀ p : Nat × Grid, p.1 ≠ li →
        ((fun (le : Nat × Grid) => layerFloorTiles le.1 le.2 cs wh wt) p).count
          (unitTile li ri ci cs wh) = 0 := by
      rintro ⟨n, layer⟩ hne
      apply List.count_eq_zero_of_not_mem
      intro hm
      dsimp only at hm
      rcases mem_layerFloorTiles.mp hm with ⟨_, _, _, _, _, _, ht⟩ | ⟨_, ht⟩
      · exact hne (unitTile_eq_iff.mp ht.symm).1
      · exact unitTile_ne_groundTile ht
    rw [show buildFloorTiles (l0 :: rest) cs wh wt =
        (List.enumFrom 0 (l0 :: rest)).flatMap
          (fun (le : Nat × Grid) => layerFloorTiles le.1 le.2 cs wh wt) from rfl]
    rw [count_enumFrom_flatMap _ _ li huF (l0 :: rest) 0, if_pos (Nat.zero_le li),
      Nat.sub_zero]
    cases hst : (l0 :: rest).get? li with
    | none =>
      have hcell : cellAtStack (l0 :: rest) li ri ci = none := by
        unfold cellAtStack
        rw [hst]
        rfl
      rw [if_neg (by simp [hcell])]
      rfl
    | some layer =>
      rw [Option.map_some', Option.getD_some]
      dsimp only
      rw [count_unit_layerFloorTiles li ri ci layer cs wh wt]
      have hcell : cellAtStack (l0 :: rest) li ri ci = cellAt layer ri ci := by
        unfold cellAtStack
        rw [hst]
        rfl
      rw [hcell]

/-! ### Grid shape and cell read/write lemmas -/

/-- Grid shape: `h` rows, each of length `w`. -/
def Shaped (w h : Nat) (g : Grid) : Prop :=
  g.length = h ∧ ∀ r ∈ g, r.length = w

theorem Shaped.setCell {w h : Nat} {g : Grid} (hs : Shaped w h g) (y x v : Nat) :
    Shaped w h (setCell g y x v) := by
  unfold MazeSolver3D.setCell
  cases hrow : g.get? y with
  | none => exact hs
  | some row =>
    refine ⟨by rw [List.length_set]; exact hs.1, ?_⟩
    intro r hr
    rcases List.mem_or_eq_of_mem_set hr with h' | h'
    · exact hs.2 r h'
    · rw [h', List.length_set]
      exact hs.2 row (List.get?_mem hrow)

theorem shaped_initialGrid (w h : Nat) :
    Shaped w h (initialGrid w h) := by
  apply Shaped.setCell
  refine ⟨List.length_replicate h _, ?_⟩
  intro r hr
  rw [List.eq_of_mem_replicate hr]
  exact List.length_replicate w 1

/-- Writing one cell leaves every other cell unchanged. -/
theorem getCell_setCell_ne {g : Grid} {y x y' x' : Nat}
    (hne : y ≠ y' ∨ x ≠ x') (v : Nat) :
    getCell (setCell g y x v) y' x' = getCell g y' x' := by
  unfold setCell
  cases hrow : g.get? y with
  | none => rfl
  | some row =>
    unfold getCell
    by_cases hy : y = y'
    · subst hy
      have hx : x ≠ x' := by tauto
      have hyl : y < g.length := (List.get?_eq_some.mp hrow).1
      rw [List.get?_set_eq_of_lt _ hyl, hrow]
      simp only [Option.getD_some]
      rw [List.get?_set_ne _ _ hx]
    · rw [List.get?_set_ne _ _ hy]

/-- Writing one cell of a well-shaped grid makes it readable. -/
theorem getCell_setCell_self {w h : Nat} {g : Grid} (hs : Shaped w h g)
    {y x : Nat} (hy : y < h) (hx : x < w) (v : Nat) :
    getCell (setCell g y x v) y x = v := by
  obtain ⟨row, hrow⟩ : ∃ row, g.get? y = some row := by
    cases hg : g.get? y with
    | some row => exact ⟨row, rfl⟩
    | none =>
      have := List.get?_eq_none.mp hg
      rw [hs.1] at this
      omega
  unfold setCell
  rw [hrow]
  unfold getCell
  have hyl : y < g.length := by rw [hs.1]; exact hy
  rw [List.get?_set_eq_of_lt _ hyl]
  simp only [Option.getD_some]
  have hxl : x < row.length := by rw [hs.2 row (List.get?_mem hrow)]; exact hx
  rw [List.get?_set_eq_of_lt _ hxl]
  rfl

theorem list_set_get_id {a : Type _} :
    ∀ (l : List a) (n : Nat) (v : a), l.get? n = some v → l.set n v = l := by
  intro l
  induction l with
  | nil => intro n v h; cases h
  | cons b bs ih =>
    intro n v h
    cases n with
    | zero =>
      rw [List.get?_cons_zero] at h
      rw [Option.some.inj h]
      rfl
    | succ m =>
      rw [List.get?_cons_succ] at h
      rw [List.set_cons_succ, ih m v h]

/-- Writing a cell's current value back is a no-op. -/
theorem setCell_eq_self {g : Grid} {y x v : Nat} (h : getCell g y x = v) :
    setCell g y x v = g := by
  unfold setCell
  cases hrow : g.get? y with
  | none => rfl
  | some row =>
    show List.set g y (List.set row x v) = g
    unfold getCell at h
    rw [hrow, Option.getD_some] at h
    have hrw : List.set row x v = row := by
      cases hx : row.get? x with
      | none => exact List.set_eq_of_length_le (List.get?_eq_none.mp hx)
      | some c =>
        rw [hx, Option.getD_some] at h
        subst h
        exact list_set_get_id row x c hx
    rw [hrw]
    exact list_set_get_id g y row hrow

/-! ### Border enforcement and entry carving -/

/-- After the first border loop, rows 0 and `h - 1` hold Wall at the
processed columns and nothing else changed. -/
theorem borderRows_getCell (w h : Nat) :
    ∀ (L : List Nat) (g : Grid), Shaped w h g → ∀ y x, y < h → x < w →
      getCell (L.foldl (fun acc i => setCell (setCell acc 0 i 1) (h - 1) i 1) g) y x =
        if (y = 0 ∨ y = h - 1) ∧ x ∈ L then 1 else getCell g y x := by
  intro L
  induction L with
  | nil =>
    intro g _ y x _ _
    simp
  | cons i L ih =>
    intro g hs y x hy hx
    rw [List.foldl_cons]
    rw [ih _ ((hs.setCell 0 i 1).setCell (h - 1) i 1) y x hy hx]
    by_cases hyy : y = 0 ∨ y = h - 1
    · by_cases hxL : x ∈ L
      · rw [if_pos ⟨hyy, hxL⟩, if_pos ⟨hyy, List.mem_cons_of_mem i hxL⟩]
      · rw [if_neg (fun hc => hxL hc.2)]
        by_cases hxi : x = i
        · subst hxi
          rw [if_pos ⟨hyy, List.mem_cons_self x L⟩]
          rcases hyy with rfl | rfl
          · by_cases hh : h - 1 = 0
            · rw [show getCell (setCell (setCell g 0 x 1) (h - 1) x 1) 0 x =
                  getCell (setCell (setCell g 0 x 1) 0 x 1) 0 x by rw [hh]]
              exact getCell_setCell_self (hs.setCell 0 x 1) hy hx 1
            · rw [getCell_setCell_ne (Or.inl hh) 1]
              exact getCell_setCell_self hs hy hx 1
          · exact getCell_setCell_self (hs.setCell 0 x 1) hy hx 1
        · rw [if_neg (by
            rintro ⟨_, hmem⟩
            rcases List.mem_cons.mp hmem with heq | hmem'
            · exact hxi heq
            · exact hxL hmem')]
          rw [getCell_setCell_ne (Or.inr (fun hc => hxi hc.symm)) 1,
            getCell_setCell_ne (Or.inr (fun hc => hxi hc.symm)) 1]
    · have hy0 : y ≠ 0 := fun hc => hyy (Or.inl hc)
      have hyh : y ≠ h - 1 := fun hc => hyy (Or.inr hc)
      rw [if_neg (fun hc => hyy hc.1), if_neg (fun hc => hyy hc.1)]
      rw [getCell_setCell_ne (Or.inl (Ne.symm hyh)) 1,
        getCell_setCell_ne (Or.inl (Ne.symm hy0)) 1]

/-- After the second border loop, columns 0 and `w - 1` hold Wall at the
processed rows and nothing else changed. -/
theorem borderCols_getCell (w h : Nat) :
    ∀ (L : List Nat) (g : Grid), Shaped w h g → ∀ y x, y < h → x < w →
      getCell (L.foldl (fun acc i => setCell (setCell acc i 0 1) i (w - 1) 1) g) y x =
        if (x = 0 ∨ x = w - 1) ∧ y ∈ L then 1 else getCell g y x := by
  intro L
  induction L with
  | nil =>
    intro g _ y x _ _
    simp
  | cons i L ih =>
    intro g hs y x hy hx
    rw [List.foldl_cons]
    rw [ih _ ((hs.setCell i 0 1).setCell i (w - 1) 1) y x hy hx]
    by_cases hxx : x = 0 ∨ x = w - 1
    · by_cases hyL : y ∈ L
      · rw [if_pos ⟨hxx, hyL⟩, if_pos ⟨hxx, List.mem_cons_of_mem i hyL⟩]
      · rw [if_neg (fun hc => hyL hc.2)]
        by_cases hyi : y = i
        · subst hyi
          rw [if_pos ⟨hxx, List.mem_cons_self y L⟩]
          rcases hxx with rfl | rfl
          · by_cases hwz : w - 1 = 0
            · rw [show getCell (setCell (setCell g y 0 1) y (w - 1) 1) y 0 =
                  getCell (setCell (setCell g y 0 1) y 0 1) y 0 by rw [hwz]]
              exact getCell_setCell_self (hs.setCell y 0 1) hy hx 1
            · rw [getCell_setCell_ne (Or.inr hwz) 1]
              exact getCell_setCell_self hs hy hx 1
          · exact getCell_setCell_self (hs.setCell y 0 1) hy hx 1
        · rw [if_neg (by
            rintro ⟨_, hmem⟩
            rcases List.mem_cons.mp hmem with heq | hmem'
            · exact hyi heq
            · exact hyL hmem')]
          rw [getCell_setCell_ne (Or.inl (fun hc => hyi hc.symm)) 1,
            getCell_setCell_ne (Or.inl (fun hc => hyi hc.symm)) 1]
    · rw [if_neg (fun hc => hxx hc.1), if_neg (fun hc => hxx hc.1)]
      have hx0 : x ≠ 0 := fun hc => hxx (Or.inl hc)
      have hxw : x ≠ w - 1 := fun hc => hxx (Or.inr hc)
      rw [getCell_setCell_ne (Or.inr (Ne.symm hxw)) 1,
        getCell_setCell_ne (Or.inr (Ne.symm hx0)) 1]

/-- Folding a shape-preserving step preserves shape. -/
theorem shaped_foldl {w h : Nat} (f : Grid → Nat → Grid)
    (hf : ∀ g i, Shaped w h g → Shaped w h (f g i)) :
    ∀ (L : List Nat) (g : Grid), Shaped w h g → Shaped w h (L.foldl f g) := by
  intro L
  induction L with
  | nil => intro g hs; exact hs
  | cons i L ih =>
    intro g hs
    rw [List.foldl_cons]
    exact ih _ (hf g i hs)

theorem shaped_applyBorders {w h : Nat} {g : Grid} (hs : Shaped w h g) :
    Shaped w h (applyBorders g w h) := by
  unfold applyBorders
  apply shaped_foldl _ (fun g i hsg => (hsg.setCell i 0 1).setCell i (w - 1) 1)
  exact shaped_foldl _ (fun g i hsg => (hsg.setCell 0 i 1).setCell (h - 1) i 1) _ _ hs

/-- `applyBorders` walls every border cell and leaves the interior
untouched. -/
theorem applyBorders_getCell {w h : Nat} {g : Grid} (hs : Shaped w h g)
    {y x : Nat} (hy : y < h) (hx : x < w) :
    getCell (applyBorders g w h) y x =
      if onBorder w h y x then 1 else getCell g y x := by
  unfold applyBorders
  have hs1 : Shaped w h ((List.range w).foldl
      (fun acc i => setCell (setCell acc 0 i 1) (h - 1) i 1) g) :=
    shaped_foldl _ (fun g i hsg => (hsg.setCell 0 i 1).setCell (h - 1) i 1) _ _ hs
  rw [borderCols_getCell w h (List.range h) _ hs1 y x hy hx]
  rw [borderRows_getCell w h (List.range w) g hs y x hy hx]
  simp only [List.mem_range]
  unfold onBorder
  by_cases hxx : x = 0 ∨ x = w - 1
  · rw [if_pos ⟨hxx, hy⟩, if_pos (by tauto)]
  · rw [if_neg (fun hc => hxx hc.1)]
    by_cases hyy : y = 0 ∨ y = h - 1
    · rw [if_pos ⟨hyy, hx⟩, if_pos (by tauto)]
    · rw [if_neg (fun hc => hyy hc.1), if_neg (by tauto)]

/-- A ≠ between pairs yields a componentwise difference. -/
theorem pair_ne_component {a b c d : Nat} (hne : (a, b) ≠ (c, d)) :
    c ≠ a ∨ d ≠ b := by
  by_contra hcon
  push_neg at hcon
  exact hne (by rw [hcon.1, hcon.2])

/-- Reading after two writes of the same value at two distinct in-bounds
positions. -/
theorem getCell_setCell2 {w h : Nat} {g : Grid} (hs : Shaped w h g)
    {y1 x1 y2 x2 : Nat} (h1y : y1 < h) (h1x : x1 < w) (h2y : y2 < h) (h2x : x2 < w)
    (v : Nat) (y x : Nat) :
    getCell (setCell (setCell g y1 x1 v) y2 x2 v) y x =
      if (y, x) = (y1, x1) ∨ (y, x) = (y2, x2) then v else getCell g y x := by
  by_cases ha : (y, x) = (y2, x2)
  · rw [if_pos (Or.inr ha)]
    have hy' : y = y2 := congrArg Prod.fst ha
    have hx' : x = x2 := congrArg Prod.snd ha
    subst hy'
    subst hx'
    exact getCell_setCell_self (hs.setCell y1 x1 v) h2y h2x v
  · rw [getCell_setCell_ne (pair_ne_component ha) v]
    by_cases hb : (y, x) = (y1, x1)
    · rw [if_pos (Or.inl hb)]
      have hy' : y = y1 := congrArg Prod.fst hb
      have hx' : x = x1 := congrArg Prod.snd hb
      subst hy'
      subst hx'
      exact getCell_setCell_self hs h1y h1x v
    · rw [if_neg (by tauto)]
      rw [getCell_setCell_ne (pair_ne_component hb) v]

/-- `applyEntries` carves exactly the entry cells of the chosen mode and
leaves every other cell untouched (for `w, h ≥ 3`). -/
theorem applyEntries_getCell {w h : Nat} {g : Grid} (hs : Shaped w h g)
    (hw : 3 ≤ w) (hh : 3 ≤ h) (e : Entries) (y x : Nat) :
    getCell (applyEntries g w h e) y x =
      if (y, x) ∈ entryCells w h e then 0 else getCell g y x := by
  cases e with
  | noEntries => simp [applyEntries, entryCells]
  | diagonal =>
    unfold applyEntries
    rw [getCell_setCell2 hs (by omega) (by omega) (by omega) (by omega) 0 y x]
    simp [entryCells]
  | leftRight =>
    unfold applyEntries
    rw [getCell_setCell2 hs (by omega : h / 2 < h) (by omega) (by omega : h / 2 < h)
      (by omega) 0 y x]
    simp [entryCells]
  | topBottom =>
    unfold applyEntries
    rw [getCell_setCell2 hs (by omega) (by omega : w / 2 < w) (by omega)
      (by omega : w / 2 < w) 0 y x]
    simp [entryCells]

/-- The carving loop preserves the grid shape. -/
theorem shaped_carveDirs (w h : Nat) (bias : Bias) (O : Nat → List Dir) :
    ∀ (fuel : Nat) (x y : Int) (dirs : List Dir) (g : Grid) (k : Nat),
      Shaped w h g → Shaped w h (carveDirs w h bias O fuel x y dirs g k).1 := by
  intro fuel
  induction fuel with
  | zero => intro x y dirs g k hs; exact hs
  | succ n ih =>
    intro x y dirs g k hs
    cases dirs with
    | nil => exact hs
    | cons d rest =>
      simp only [carveDirs]
      split
      · exact ih _ _ _ _ _ (ih _ _ _ _ _ ((hs.setCell _ _ _).setCell _ _ _))
      · exact ih _ _ _ _ _ hs

/-- The Prim loop preserves the grid shape. -/
theorem shaped_primsLoop (w h : Nat) (OW ON : Nat → Nat) :
    ∀ (fuel : Nat) (walls : List (Nat × Nat)) (g : Grid) (k : Nat),
      Shaped w h g → Shaped w h (primsLoop w h OW ON fuel walls g k) := by
  intro fuel
  induction fuel with
  | zero => intro walls g k hs; exact hs
  | succ n ih =>
    intro walls g k hs
    cases walls with
    | nil => exact hs
    | cons p rest =>
      simp only [primsLoop]
      split
      · exact ih _ _ _ ((hs.setCell _ _ _).setCell _ _ _)
      · exact ih _ _ _ hs

/-- The entry cells of every mode lie on the border, in bounds
(for `w, h ≥ 3`). -/
theorem entryCells_onBorder {w h : Nat} (hw : 3 ≤ w) (hh : 3 ≤ h) (e : Entries) :
    ∀ p ∈ entryCells w h e, onBorder w h p.1 p.2 ∧ p.1 < h ∧ p.2 < w := by
  intro p hp
  cases e with
  | noEntries => cases hp
  | diagonal =>
    rcases List.mem_cons.mp hp with rfl | hp'
    · exact ⟨Or.inr (Or.inr (Or.inl rfl)), by omega, by omega⟩
    · rw [List.mem_singleton.mp hp']
      exact ⟨Or.inr (Or.inr (Or.inr rfl)), by omega, by omega⟩
  | leftRight =>
    rcases List.mem_cons.mp hp with rfl | hp'
    · exact ⟨Or.inr (Or.inr (Or.inl rfl)), by omega, by omega⟩
    · rw [List.mem_singleton.mp hp']
      exact ⟨Or.inr (Or.inr (Or.inr rfl)), by omega, by omega⟩
  | topBottom =>
    rcases List.mem_cons.mp hp with rfl | hp'
    · exact ⟨Or.inl rfl, by omega, by omega⟩
    · rw [List.mem_singleton.mp hp']
      exact ⟨Or.inr (Or.inl rfl), by omega, by omega⟩

/-- C8: in a layer returned by either generator, every border cell is Wall
except exactly the entry cells of the chosen mode, which are Path; the
entry cells themselves lie on the border. -/
theorem c8_border_enforcement (w h : Nat) (hw : 3 ≤ w) (hh : 3 ≤ h)
    (entries : Entries) (bias : Bias) (O : Nat → List Dir) (OW ON : Nat → Nat)
    (y x : Nat) (hy : y < h) (hx : x < w) (hb : onBorder w h y x) :
    (getCell (randomizedDepthFirst w h entries bias O) y x =
      if (y, x) ∈ entryCells w h entries then 0 else 1) ∧
    (getCell (randomizedPrims w h entries OW ON) y x =
      if (y, x) ∈ entryCells w h entries then 0 else 1) ∧
    (∀ p ∈ entryCells w h entries, onBorder w h p.1 p.2 ∧ p.1 < h ∧ p.2 < w) := by
  have hs0 : Shaped w h (initialGrid w h) := shaped_initialGrid w h
  refine ⟨?_, ?_, entryCells_onBorder hw hh entries⟩
  · unfold randomizedDepthFirst carve
    dsimp only
    have hsc : Shaped w h (carveDirs w h bias O (5 * (w * h) + 5) 1 1
        (biasedDirs bias (O 0)) (setCell (List.replicate h (List.replicate w 1)) 1 1 0)
        (0 + 1)).1 :=
      shaped_carveDirs w h bias O _ _ _ _ _ _ hs0
    rw [applyEntries_getCell (shaped_applyBorders hsc) hw hh entries y x]
    rw [applyBorders_getCell hsc hy hx, if_pos hb]
  · unfold randomizedPrims
    dsimp only
    have hsc : Shaped w h (primsLoop w h OW ON (5 * w * h)
        (addWalls w h (setCell (List.replicate h (List.replicate w 1)) 1 1 0) 1 1 [])
        (setCell (List.replicate h (List.replicate w 1)) 1 1 0) 0) :=
      shaped_primsLoop w h OW ON _ _ _ _ hs0
    rw [applyEntries_getCell (shaped_applyBorders hsc) hw hh entries y x]
    rw [applyBorders_getCell hsc hy hx, if_pos hb]

/-! ### Path-set and tree lemmas for the carving invariant -/

/-- A write either shows up at the read position or changes nothing. -/
theorem getCell_setCell_cases (g : Grid) (a b v y x : Nat) :
    getCell (setCell g a b v) y x = v ∨
      getCell (setCell g a b v) y x = getCell g y x := by
  by_cases hpos : a = y ∧ b = x
  · obtain ⟨rfl, rfl⟩ := hpos
    unfold setCell
    cases hrow : g.get? a with
    | none => exact Or.inr rfl
    | some row =>
      show getCell (List.set g a (List.set row b v)) a b = v ∨ _
      by_cases hb : b < row.length
      · left
        unfold getCell
        rw [List.get?_set_eq_of_lt _ ((List.get?_eq_some.mp hrow).1)]
        simp only [Option.getD_some]
        rw [List.get?_set_eq_of_lt _ hb]
        rfl
      · right
        unfold getCell
        rw [List.get?_set_eq_of_lt _ ((List.get?_eq_some.mp hrow).1)]
        simp only [Option.getD_some]
        rw [List.set_eq_of_length_le (by omega), hrow]
        rfl
  · right
    exact getCell_setCell_ne (by tauto) v

/-- A carving move never erases a Path cell. -/
theorem carveMove_mono {w h : Nat} {g g' : Grid} (hm : CarveMove w h g g')
    {y x : Nat} (h0 : getCell g y x = 0) : getCell g' y x = 0 := by
  have htwo : ∀ (g0 : Grid) (a b c d : Nat),
      getCell (setCell (setCell g0 a b 0) c d 0) y x = 0 ∨
        getCell (setCell (setCell g0 a b 0) c d 0) y x = getCell g0 y x := by
    intro g0 a b c d
    rcases getCell_setCell_cases (setCell g0 a b 0) c d 0 y x with h1 | h1
    · exact Or.inl h1
    · rcases getCell_setCell_cases g0 a b 0 y x with h2 | h2
      · exact Or.inl (h1.trans h2)
      · exact Or.inr (h1.trans h2)
  cases hm with
  | right yy xx _ _ _ _ _ =>
    rcases htwo g yy (xx + 2) yy (xx + 1) with h1 | h1
    · exact h1
    · rw [h1]; exact h0
  | left yy xx _ _ _ _ _ =>
    rcases htwo g yy (xx - 2) yy (xx - 1) with h1 | h1
    · exact h1
    · rw [h1]; exact h0
  | down yy xx _ _ _ _ _ =>
    rcases htwo g (yy + 2) xx (yy + 1) xx with h1 | h1
    · exact h1
    · rw [h1]; exact h0
  | up yy xx _ _ _ _ _ =>
    rcases htwo g (yy - 2) xx (yy - 1) xx with h1 | h1
    · exact h1
    · rw [h1]; exact h0

/-- Reachability by carving moves never erases a Path cell. -/
theorem carveReach_mono {w h : Nat} {g g' : Grid} (hr : CarveReach w h g g')
    {y x : Nat} (h0 : getCell g y x = 0) : getCell g' y x = 0 := by
  induction hr with
  | refl => exact h0
  | tail _ hmv ih => exact carveMove_mono hmv ih

/-- Carving moves preserve the grid shape. -/
theorem carveMove_shaped {w h : Nat} {g g' : Grid} (hm : CarveMove w h g g')
    (hs : Shaped w h g) : Shaped w h g' := by
  cases hm <;> exact (hs.setCell _ _ _).setCell _ _ _

/-- Row lengths bound the grid's column count. -/
theorem length_le_gridCols {g : Grid} {row : List Nat} (hr : row ∈ g) :
    row.length ≤ gridCols g := by
  unfold gridCols
  induction g with
  | nil => cases hr
  | cons r rs ih =>
    rcases List.mem_cons.mp hr with rfl | hr'
    · exact le_max_left _ _
    · exact le_trans (ih hr') (le_max_right _ _)

/-- Membership in the Path set is exactly a zero cell read. -/
theorem mem_pathSet {g : Grid} {p : Nat × Nat} :
    p ∈ pathSet g ↔ getCell g p.1 p.2 = 0 := by
  unfold pathSet cellBox gridRows
  rw [Finset.mem_filter]
  constructor
  · exact fun hc => hc.2
  · intro h0
    refine ⟨Finset.mem_product.mpr ⟨?_, ?_⟩, h0⟩
    · rw [Finset.mem_range]
      unfold getCell at h0
      cases hrow : g.get? p.1 with
      | none => rw [hrow] at h0; simp at h0
      | some row => exact (List.get?_eq_some.mp hrow).1
    · rw [Finset.mem_range]
      unfold getCell at h0
      cases hrow : g.get? p.1 with
      | none => rw [hrow] at h0; simp at h0
      | some row =>
        rw [hrow, Option.getD_some] at h0
        cases hcol : row.get? p.2 with
        | none => rw [hcol] at h0; simp at h0
        | some c =>
          have hlt : p.2 < row.length := (List.get?_eq_some.mp hcol).1
          exact lt_of_lt_of_le hlt (length_le_gridCols (List.get?_mem hrow))

/-- A Wall cell is not in the Path set. -/
theorem not_mem_pathSet_of_wall {g : Grid} {y x : Nat}
    (h1 : getCell g y x = 1) : (y, x) ∉ pathSet g := by
  rw [mem_pathSet]
  simp [h1]

/-- Shape determines the column count (for a nonempty grid). -/
theorem gridCols_of_shaped {w h : Nat} {g : Grid} (hs : Shaped w h g)
    (hpos : 0 < h) : gridCols g = w := by
  unfold gridCols
  obtain ⟨hlen, hrows⟩ := hs
  have hne : g ≠ [] := by
    intro hc
    rw [hc] at hlen
    simp at hlen
    omega
  clear hlen hpos
  induction g with
  | nil => exact absurd rfl hne
  | cons r rs ih =>
    cases rs with
    | nil =>
      simp only [List.map_cons, List.map_nil, List.foldr_cons, List.foldr_nil]
      rw [hrows r (List.mem_cons_self r [])]
      exact max_eq_left (Nat.zero_le w)
    | cons r2 rs2 =>
      simp only [List.map_cons, List.foldr_cons] at ih ⊢
      rw [hrows r (List.mem_cons_self r _),
        ih (fun rr hrr => hrows rr (List.mem_cons_of_mem r hrr)) (by simp)]
      exact max_self w

/-- Writing `0` into an in-bounds cell inserts it into the Path set. -/
theorem pathSet_setCell_zero {w h : Nat} {g : Grid} (hs : Shaped w h g)
    {y x : Nat} (hy : y < h) (hx : x < w) :
    pathSet (setCell g y x 0) = insert (y, x) (pathSet g) := by
  have hpos : 0 < h := by omega
  apply Finset.ext
  intro p
  rw [Finset.mem_insert, mem_pathSet, mem_pathSet]
  by_cases hp : p = (y, x)
  · subst hp
    rw [getCell_setCell_self hs hy hx 0]
    simp
  · have hne : y ≠ p.1 ∨ x ≠ p.2 := by
      by_contra hc
      push_neg at hc
      exact hp (Prod.ext hc.1.symm hc.2.symm)
    rw [getCell_setCell_ne hne 0]
    simp [hp]

/-- `pairsF` as a sum of per-cell neighbour indicators. -/
theorem pairsF_eq_sum (S : Finset (Nat × Nat)) :
    pairsF S = Finset.sum S (fun p =>
      (if (p.1, p.2 + 1) ∈ S then 1 else 0) + (if (p.1 + 1, p.2) ∈ S then 1 else 0)) := by
  unfold pairsF
  rw [Finset.sum_add_distrib, Finset.card_filter, Finset.card_filter]

/-- The one member of `S` whose right neighbour is `z`, counted. -/
theorem sum_right_eq (S : Finset (Nat × Nat)) (z : Nat × Nat) :
    Finset.sum S (fun p => if (p.1, p.2 + 1) = z then (1 : Nat) else 0) =
      if 1 ≤ z.2 ∧ (z.1, z.2 - 1) ∈ S then 1 else 0 := by
  rw [← Finset.card_filter]
  by_cases hcond : 1 ≤ z.2 ∧ (z.1, z.2 - 1) ∈ S
  · rw [if_pos hcond]
    rw [show S.filter (fun p => (p.1, p.2 + 1) = z) = {(z.1, z.2 - 1)} from ?_]
    · exact Finset.card_singleton _
    · apply Finset.ext
      intro p
      rw [Finset.mem_filter, Finset.mem_singleton]
      constructor
      · rintro ⟨_, hp⟩
        have h1 : p.1 = z.1 := (Prod.ext_iff.mp hp).1
        have h2 : p.2 + 1 = z.2 := (Prod.ext_iff.mp hp).2
        exact Prod.ext h1 (by omega)
      · rintro rfl
        refine ⟨hcond.2, Prod.ext rfl ?_⟩
        show z.2 - 1 + 1 = z.2
        omega
  · rw [if_neg hcond]
    rw [show S.filter (fun p => (p.1, p.2 + 1) = z) = ∅ from ?_]
    · exact Finset.card_empty
    · apply Finset.eq_empty_of_forall_not_mem
      intro p hp
      rw [Finset.mem_filter] at hp
      obtain ⟨hmem, hp2⟩ := hp
      have h1 : p.1 = z.1 := (Prod.ext_iff.mp hp2).1
      have h2 : p.2 + 1 = z.2 := (Prod.ext_iff.mp hp2).2
      apply hcond
      refine ⟨by omega, ?_⟩
      rw [show (z.1, z.2 - 1) = p from Prod.ext h1.symm (by omega)]
      exact hmem

/-- The one member of `S` whose lower neighbour is `z`, counted. -/
theorem sum_down_eq (S : Finset (Nat × Nat)) (z : Nat × Nat) :
    Finset.sum S (fun p => if (p.1 + 1, p.2) = z then (1 : Nat) else 0) =
      if 1 ≤ z.1 ∧ (z.1 - 1, z.2) ∈ S then 1 else 0 := by
  rw [← Finset.card_filter]
  by_cases hcond : 1 ≤ z.1 ∧ (z.1 - 1, z.2) ∈ S
  · rw [if_pos hcond]
    rw [show S.filter (fun p => (p.1 + 1, p.2) = z) = {(z.1 - 1, z.2)} from ?_]
    · exact Finset.card_singleton _
    · apply Finset.ext
      intro p
      rw [Finset.mem_filter, Finset.mem_singleton]
      constructor
      · rintro ⟨_, hp⟩
        have h1 : p.1 + 1 = z.1 := (Prod.ext_iff.mp hp).1
        have h2 : p.2 = z.2 := (Prod.ext_iff.mp hp).2
        exact Prod.ext (by omega) h2
      · rintro rfl
        refine ⟨hcond.2, Prod.ext ?_ rfl⟩
        show z.1 - 1 + 1 = z.1
        omega
  · rw [if_neg hcond]
    rw [show S.filter (fun p => (p.1 + 1, p.2) = z) = ∅ from ?_]
    · exact Finset.card_empty
    · apply Finset.eq_empty_of_forall_not_mem
      intro p hp
      rw [Finset.mem_filter] at hp
      obtain ⟨hmem, hp2⟩ := hp
      have h1 : p.1 + 1 = z.1 := (Prod.ext_iff.mp hp2).1
      have h2 : p.2 = z.2 := (Prod.ext_iff.mp hp2).2
      apply hcond
      refine ⟨by omega, ?_⟩
      rw [show (z.1 - 1, z.2) = p from Prod.ext (by omega) h2.symm]
      exact hmem

/-- Inserting a fresh cell adds exactly its adjacencies into `S`. -/
theorem pairsF_insert (S : Finset (Nat × Nat)) (z : Nat × Nat) (hz : z ∉ S) :
    pairsF (insert z S) = pairsF S + adjCount S z := by
  have hind : ∀ u : Nat × Nat,
      (if u ∈ insert z S then (1 : Nat) else 0) =
        (if u ∈ S then 1 else 0) + (if u = z then 1 else 0) := by
    intro u
    by_cases h1 : u = z
    · subst h1
      rw [if_pos (Finset.mem_insert_self u S), if_neg hz, if_pos rfl]
    · rw [if_neg h1]
      by_cases h2 : u ∈ S
      · rw [if_pos h2, if_pos (Finset.mem_insert_of_mem h2), Nat.add_zero]
      · rw [if_neg h2, if_neg (fun hc => by
          rcases Finset.mem_insert.mp hc with hc' | hc'
          · exact h1 hc'
          · exact h2 hc'), Nat.add_zero]
  rw [pairsF_eq_sum (insert z S), Finset.sum_insert hz]
  have hz1 : ((z.1, z.2 + 1) : Nat × Nat) ≠ z := by
    intro hc
    have := congrArg Prod.snd hc
    omega
  have hz2 : ((z.1 + 1, z.2) : Nat × Nat) ≠ z := by
    intro hc
    have := congrArg Prod.fst hc
    omega
  have hhead : (if (z.1, z.2 + 1) ∈ insert z S then (1 : Nat) else 0) +
      (if (z.1 + 1, z.2) ∈ insert z S then 1 else 0) =
      (if (z.1, z.2 + 1) ∈ S then 1 else 0) + (if (z.1 + 1, z.2) ∈ S then 1 else 0) := by
    rw [hind, hind, if_neg hz1, if_neg hz2]
    omega
  rw [hhead]
  have hbody : Finset.sum S (fun p =>
      (if (p.1, p.2 + 1) ∈ insert z S then (1 : Nat) else 0) +
      (if (p.1 + 1, p.2) ∈ insert z S then 1 else 0)) =
      Finset.sum S (fun p =>
        ((if (p.1, p.2 + 1) ∈ S then 1 else 0) + (if (p.1 + 1, p.2) ∈ S then 1 else 0)) +
        ((if (p.1, p.2 + 1) = z then 1 else 0) + (if (p.1 + 1, p.2) = z then 1 else 0))) := by
    apply Finset.sum_congr rfl
    intro p _
    rw [hind, hind]
    ring
  rw [hbody, Finset.sum_add_distrib, Finset.sum_add_distrib, Finset.sum_add_distrib,
    sum_right_eq S z, sum_down_eq S z, ← Finset.card_filter, ← Finset.card_filter]
  unfold pairsF adjCount
  ring

/-- Tree counting across one carving extension: the new midpoint and
target contribute two cells and two adjacencies. -/
theorem pairs_count_extend (S : Finset (Nat × Nat)) (m t : Nat × Nat)
    (ht : t ∉ S) (hm : m ∉ insert t S)
    (hct : adjCount S t = 0) (hcm : adjCount (insert t S) m = 2)
    (hp : pairsF S + 1 = S.card) :
    pairsF (insert m (insert t S)) + 1 = (insert m (insert t S)).card := by
  rw [pairsF_insert _ _ hm, pairsF_insert _ _ ht, hct, hcm,
    Finset.card_insert_of_not_mem hm, Finset.card_insert_of_not_mem ht]
  omega

/-- Orthogonal adjacency is symmetric. -/
theorem adjacentCells_symm {p q : Nat × Nat} (h : adjacentCells p q) :
    adjacentCells q p := by
  unfold adjacentCells at h ⊢
  tauto

/-- One Path step is symmetric. -/
theorem pathStep_symm (g : Grid) : Symmetric (pathStep g) := by
  rintro p q ⟨hp, hq, hadj⟩
  exact ⟨hq, hp, adjacentCells_symm hadj⟩

/-- Extending a connected Path set by a midpoint `m` (adjacent to the old
cell `s` and the new cell `t`) keeps it connected. -/
theorem connected_extend {g g' : Grid} (s m t : Nat × Nat)
    (hset : pathSet g' = insert m (insert t (pathSet g)))
    (hs : s ∈ pathSet g)
    (hadj_ms : adjacentCells m s) (hadj_mt : adjacentCells m t)
    (hconn : connectedPaths g) : connectedPaths g' := by
  have hsub : pathSet g ⊆ pathSet g' := by
    rw [hset]
    intro p hp
    exact Finset.mem_insert_of_mem (Finset.mem_insert_of_mem hp)
  have hm' : m ∈ pathSet g' := by
    rw [hset]
    exact Finset.mem_insert_self m _
  have ht' : t ∈ pathSet g' := by
    rw [hset]
    exact Finset.mem_insert_of_mem (Finset.mem_insert_self t _)
  have hs' : s ∈ pathSet g' := hsub hs
  have hmono : ∀ p q, Relation.ReflTransGen (pathStep g) p q →
      Relation.ReflTransGen (pathStep g') p q := by
    intro p q hr
    refine Relation.ReflTransGen.mono ?_ hr
    rintro a b ⟨ha, hb, hab⟩
    exact ⟨hsub ha, hsub hb, hab⟩
  have hreach_s : ∀ p ∈ pathSet g', Relation.ReflTransGen (pathStep g') p s := by
    intro p hp
    rw [hset] at hp
    rcases Finset.mem_insert.mp hp with rfl | hp2
    · exact Relation.ReflTransGen.single ⟨hm', hs', hadj_ms⟩
    rcases Finset.mem_insert.mp hp2 with rfl | hp3
    · exact Relation.ReflTransGen.head ⟨ht', hm', adjacentCells_symm hadj_mt⟩
        (Relation.ReflTransGen.single ⟨hm', hs', hadj_ms⟩)
    · exact hmono p s (hconn p hp3 s hs)
  intro p hp q hq
  exact (hreach_s p hp).trans
    (Relation.ReflTransGen.symmetric (pathStep_symm g') (hreach_s q hq))

/-- Carving a corridor from a Path cell `s` through midpoint `m` to an
odd-by-odd Wall target `t` preserves the carving invariant. -/
theorem carveInv_extend {w h : Nat} {g : Grid} (hs : Shaped w h g)
    (hinv : CarveInv w h g) (s m t : Nat × Nat)
    (hsP : getCell g s.1 s.2 = 0)
    (htW : getCell g t.1 t.2 = 1)
    (hot1 : ¬Even t.1) (hot2 : ¬Even t.2)
    (hmid : HMid s m t)
    (hbt : 1 ≤ t.1 ∧ t.1 ≤ h - 2 ∧ 1 ≤ t.2 ∧ t.2 ≤ w - 2)
    (hbm : 1 ≤ m.1 ∧ m.1 ≤ h - 2 ∧ 1 ≤ m.2 ∧ m.2 ≤ w - 2)
    (hh2 : 2 ≤ h) (hw2 : 2 ≤ w) :
    CarveInv w h (setCell (setCell g t.1 t.2 0) m.1 m.2 0) := by
  obtain ⟨h01, hA, hB, hC, hPairs, hConn⟩ := hinv
  have hsS : s ∈ pathSet g := mem_pathSet.mpr hsP
  have htS : t ∉ pathSet g := by
    have h' := not_mem_pathSet_of_wall htW
    rw [Prod.mk.eta] at h'
    exact h'
  have ht1m : t.1 % 2 = 1 := by
    rcases Nat.even_or_odd t.1 with he | ho
    · exact absurd he hot1
    · exact Nat.odd_iff.mp ho
  have ht2m : t.2 % 2 = 1 := by
    rcases Nat.even_or_odd t.2 with he | ho
    · exact absurd he hot2
    · exact Nat.odd_iff.mp ho
  have hct : adjCount (pathSet g) t = 0 := by
    have e1 : (t.1, t.2 + 1) ∉ pathSet g := by
      intro hmem
      have h0 : getCell g t.1 (t.2 + 1) = 0 := mem_pathSet.mp hmem
      have hev : Even (t.2 + 1) := Nat.even_iff.mpr (by omega)
      have hc := (hC t.1 (t.2 + 1) h0 hev).1
      rw [show t.2 + 1 - 1 = t.2 from by omega] at hc
      omega
    have e2 : (t.1 + 1, t.2) ∉ pathSet g := by
      intro hmem
      have h0 : getCell g (t.1 + 1) t.2 = 0 := mem_pathSet.mp hmem
      have hev : Even (t.1 + 1) := Nat.even_iff.mpr (by omega)
      have hc := (hB (t.1 + 1) t.2 h0 hev).1
      rw [show t.1 + 1 - 1 = t.1 from by omega] at hc
      omega
    have e3 : ¬(1 ≤ t.2 ∧ (t.1, t.2 - 1) ∈ pathSet g) := by
      rintro ⟨hge, hmem⟩
      have h0 : getCell g t.1 (t.2 - 1) = 0 := mem_pathSet.mp hmem
      have hev : Even (t.2 - 1) := Nat.even_iff.mpr (by omega)
      have hc := (hC t.1 (t.2 - 1) h0 hev).2
      rw [show t.2 - 1 + 1 = t.2 from by omega] at hc
      omega
    have e4 : ¬(1 ≤ t.1 ∧ (t.1 - 1, t.2) ∈ pathSet g) := by
      rintro ⟨hge, hmem⟩
      have h0 : getCell g (t.1 - 1) t.2 = 0 := mem_pathSet.mp hmem
      have hev : Even (t.1 - 1) := Nat.even_iff.mpr (by omega)
      have hc := (hB (t.1 - 1) t.2 h0 hev).2
      rw [show t.1 - 1 + 1 = t.1 from by omega] at hc
      omega
    unfold adjCount
    rw [if_neg e1, if_neg e2, if_neg e3, if_neg e4]
  have hmS : m ∉ pathSet g := by
    intro hmem
    have hm0 : getCell g m.1 m.2 = 0 := mem_pathSet.mp hmem
    rcases hmid with ⟨_, he2, _, hst⟩ | ⟨he1, _, _, hst⟩
    · obtain ⟨hc1, hc2⟩ := hC m.1 m.2 hm0 he2
      rcases hst with ⟨hL, hR⟩ | ⟨hL, hR⟩
      · have h1 : m.1 = t.1 := (Prod.ext_iff.mp hR).1
        have h2 : m.2 + 1 = t.2 := (Prod.ext_iff.mp hR).2
        rw [h1, h2] at hc2
        omega
      · have h1 : m.1 = t.1 := (Prod.ext_iff.mp hL).1
        have h2 : m.2 - 1 = t.2 := (Prod.ext_iff.mp hL).2
        rw [h1, h2] at hc1
        omega
    · obtain ⟨hc1, hc2⟩ := hB m.1 m.2 hm0 he1
      rcases hst with ⟨hL, hR⟩ | ⟨hL, hR⟩
      · have h1 : m.1 + 1 = t.1 := (Prod.ext_iff.mp hR).1
        have h2 : m.2 = t.2 := (Prod.ext_iff.mp hR).2
        rw [h1, h2] at hc2
        omega
      · have h1 : m.1 - 1 = t.1 := (Prod.ext_iff.mp hL).1
        have h2 : m.2 = t.2 := (Prod.ext_iff.mp hL).2
        rw [h1, h2] at hc1
        omega
  have hmne_t : m ≠ t := by
    intro he
    rcases hmid with ⟨_, he2, _, _⟩ | ⟨he1, _, _, _⟩
    · have h2 : m.2 = t.2 := (Prod.ext_iff.mp he).2
      have := Nat.even_iff.mp he2
      omega
    · have h1 : m.1 = t.1 := (Prod.ext_iff.mp he).1
      have := Nat.even_iff.mp he1
      omega
  have hm_not : m ∉ insert t (pathSet g) := by
    intro hmem
    rcases Finset.mem_insert.mp hmem with he | hmem2
    · exact hmne_t he
    · exact hmS hmem2
  have hadj_ms : adjacentCells m s := by
    rcases hmid with ⟨_, _, hm2, hst⟩ | ⟨_, _, hm1, hst⟩
    · rcases hst with ⟨hL, hR⟩ | ⟨hL, hR⟩
      · have h1 : m.1 = s.1 := (Prod.ext_iff.mp hL).1
        have h2 : m.2 - 1 = s.2 := (Prod.ext_iff.mp hL).2
        exact Or.inr (Or.inr (Or.inl
          (Prod.ext_iff.mpr ⟨h1, (by omega : m.2 = s.2 + 1)⟩)))
      · exact Or.inl hR.symm
    · rcases hst with ⟨hL, hR⟩ | ⟨hL, hR⟩
      · have h1 : m.1 - 1 = s.1 := (Prod.ext_iff.mp hL).1
        have h2 : m.2 = s.2 := (Prod.ext_iff.mp hL).2
        exact Or.inr (Or.inr (Or.inr
          (Prod.ext_iff.mpr ⟨(by omega : m.1 = s.1 + 1), h2⟩)))
      · exact Or.inr (Or.inl hR.symm)
  have hadj_mt : adjacentCells m t := by
    rcases hmid with ⟨_, _, hm2, hst⟩ | ⟨_, _, hm1, hst⟩
    · rcases hst with ⟨hL, hR⟩ | ⟨hL, hR⟩
      · exact Or.inl hR.symm
      · have h1 : m.1 = t.1 := (Prod.ext_iff.mp hL).1
        have h2 : m.2 - 1 = t.2 := (Prod.ext_iff.mp hL).2
        exact Or.inr (Or.inr (Or.inl
          (Prod.ext_iff.mpr ⟨h1, (by omega : m.2 = t.2 + 1)⟩)))
    · rcases hst with ⟨hL, hR⟩ | ⟨hL, hR⟩
      · exact Or.inr (Or.inl hR.symm)
      · have h1 : m.1 - 1 = t.1 := (Prod.ext_iff.mp hL).1
        have h2 : m.2 = t.2 := (Prod.ext_iff.mp hL).2
        exact Or.inr (Or.inr (Or.inr
          (Prod.ext_iff.mpr ⟨(by omega : m.1 = t.1 + 1), h2⟩)))
  have hcm : adjCount (insert t (pathSet g)) m = 2 := by
    rcases hmid with ⟨ho1, he2, hm2, hst⟩ | ⟨he1, ho2, hm1, hst⟩
    · have hm1m : m.1 % 2 = 1 := by
        rcases Nat.even_or_odd m.1 with he | ho
        · exact absurd he ho1
        · exact Nat.odd_iff.mp ho
      have hm2m : m.2 % 2 = 0 := Nat.even_iff.mp he2
      have i1 : (m.1, m.2 + 1) ∈ insert t (pathSet g) := by
        rcases hst with ⟨hL, hR⟩ | ⟨hL, hR⟩
        · rw [hR]
          exact Finset.mem_insert_self t _
        · rw [hR]
          exact Finset.mem_insert_of_mem hsS
      have i3 : (m.1, m.2 - 1) ∈ insert t (pathSet g) := by
        rcases hst with ⟨hL, hR⟩ | ⟨hL, hR⟩
        · rw [hL]
          exact Finset.mem_insert_of_mem hsS
        · rw [hL]
          exact Finset.mem_insert_self t _
      have i2 : (m.1 + 1, m.2) ∉ insert t (pathSet g) := by
        intro hmem
        rcases Finset.mem_insert.mp hmem with he | hmem2
        · have h2 : m.2 = t.2 := (Prod.ext_iff.mp he).2
          omega
        · have h0 : getCell g (m.1 + 1) m.2 = 0 := mem_pathSet.mp hmem2
          exact (hA (m.1 + 1) m.2 h0).2.2.2.2 ⟨Nat.even_iff.mpr (by omega), he2⟩
      have i4 : ¬(1 ≤ m.1 ∧ (m.1 - 1, m.2) ∈ insert t (pathSet g)) := by
        rintro ⟨hge, hmem⟩
        rcases Finset.mem_insert.mp hmem with he | hmem2
        · have h2 : m.2 = t.2 := (Prod.ext_iff.mp he).2
          omega
        · have h0 : getCell g (m.1 - 1) m.2 = 0 := mem_pathSet.mp hmem2
          exact (hA (m.1 - 1) m.2 h0).2.2.2.2 ⟨Nat.even_iff.mpr (by omega), he2⟩
      unfold adjCount
      rw [if_pos i1, if_neg i2, if_pos ⟨hm2, i3⟩, if_neg i4]
    · have hm2m : m.2 % 2 = 1 := by
        rcases Nat.even_or_odd m.2 with he | ho
        · exact absurd he ho2
        · exact Nat.odd_iff.mp ho
      have hm1m : m.1 % 2 = 0 := Nat.even_iff.mp he1
      have i2 : (m.1 + 1, m.2) ∈ insert t (pathSet g) := by
        rcases hst with ⟨hL, hR⟩ | ⟨hL, hR⟩
        · rw [hR]
          exact Finset.mem_insert_self t _
        · rw [hR]
          exact Finset.mem_insert_of_mem hsS
      have i4 : (m.1 - 1, m.2) ∈ insert t (pathSet g) := by
        rcases hst with ⟨hL, hR⟩ | ⟨hL, hR⟩
        · rw [hL]
          exact Finset.mem_insert_of_mem hsS
        · rw [hL]
          exact Finset.mem_insert_self t _
      have i1 : (m.1, m.2 + 1) ∉ insert t (pathSet g) := by
        intro hmem
        rcases Finset.mem_insert.mp hmem with he | hmem2
        · have h1 : m.1 = t.1 := (Prod.ext_iff.mp he).1
          omega
        · have h0 : getCell g m.1 (m.2 + 1) = 0 := mem_pathSet.mp hmem2
          exact (hA m.1 (m.2 + 1) h0).2.2.2.2 ⟨he1, Nat.even_iff.mpr (by omega)⟩
      have i3 : ¬(1 ≤ m.2 ∧ (m.1, m.2 - 1) ∈ insert t (pathSet g)) := by
        rintro ⟨hge, hmem⟩
        rcases Finset.mem_insert.mp hmem with he | hmem2
        · have h1 : m.1 = t.1 := (Prod.ext_iff.mp he).1
          omega
        · have h0 : getCell g m.1 (m.2 - 1) = 0 := mem_pathSet.mp hmem2
          exact (hA m.1 (m.2 - 1) h0).2.2.2.2 ⟨he1, Nat.even_iff.mpr (by omega)⟩
      unfold adjCount
      rw [if_neg i1, if_pos i2, if_neg i3, if_pos ⟨hm1, i4⟩]
  have hty : t.1 < h := by omega
  have htx : t.2 < w := by omega
  have hmy : m.1 < h := by omega
  have hmx : m.2 < w := by omega
  have hs1 : Shaped w h (setCell g t.1 t.2 0) := hs.setCell _ _ _
  have hset1 : pathSet (setCell g t.1 t.2 0) = insert t (pathSet g) := by
    rw [pathSet_setCell_zero hs hty htx, Prod.mk.eta]
  have hset : pathSet (setCell (setCell g t.1 t.2 0) m.1 m.2 0) =
      insert m (insert t (pathSet g)) := by
    rw [pathSet_setCell_zero hs1 hmy hmx, hset1, Prod.mk.eta]
  have hsub' : ∀ a b : Nat, getCell g a b = 0 →
      getCell (setCell (setCell g t.1 t.2 0) m.1 m.2 0) a b = 0 := by
    intro a b hab
    have hmem : (a, b) ∈ pathSet (setCell (setCell g t.1 t.2 0) m.1 m.2 0) := by
      rw [hset]
      exact Finset.mem_insert_of_mem (Finset.mem_insert_of_mem (mem_pathSet.mpr hab))
    exact mem_pathSet.mp hmem
  refine ⟨?_, ?_, ?_, ?_, ?_, ?_⟩
  · intro y x
    rcases getCell_setCell_cases (setCell g t.1 t.2 0) m.1 m.2 0 y x with hc | hc
    · exact Or.inl hc
    · rcases getCell_setCell_cases g t.1 t.2 0 y x with hc2 | hc2
      · exact Or.inl (hc.trans hc2)
      · rw [hc, hc2]
        exact h01 y x
  · intro y x h0
    have hmem : (y, x) ∈ pathSet (setCell (setCell g t.1 t.2 0) m.1 m.2 0) :=
      mem_pathSet.mpr h0
    rw [hset] at hmem
    rcases Finset.mem_insert.mp hmem with he | hmem2
    · have h1 : y = m.1 := (Prod.ext_iff.mp he).1
      have h2 : x = m.2 := (Prod.ext_iff.mp he).2
      subst h1
      subst h2
      refine ⟨hbm.1, hbm.2.1, hbm.2.2.1, hbm.2.2.2, ?_⟩
      rcases hmid with ⟨ho1, _, _, _⟩ | ⟨_, ho2, _, _⟩
      · exact fun hc => ho1 hc.1
      · exact fun hc => ho2 hc.2
    · rcases Finset.mem_insert.mp hmem2 with he | hmem3
      · have h1 : y = t.1 := (Prod.ext_iff.mp he).1
        have h2 : x = t.2 := (Prod.ext_iff.mp he).2
        subst h1
        subst h2
        exact ⟨hbt.1, hbt.2.1, hbt.2.2.1, hbt.2.2.2, fun hc => hot1 hc.1⟩
      · exact hA y x (mem_pathSet.mp hmem3)
  · intro y x h0 hey
    have hmem : (y, x) ∈ pathSet (setCell (setCell g t.1 t.2 0) m.1 m.2 0) :=
      mem_pathSet.mpr h0
    rw [hset] at hmem
    rcases Finset.mem_insert.mp hmem with he | hmem2
    · have h1 : y = m.1 := (Prod.ext_iff.mp he).1
      have h2 : x = m.2 := (Prod.ext_iff.mp he).2
      subst h1
      subst h2
      rcases hmid with ⟨ho1, _, _, _⟩ | ⟨_, _, hm1, hst⟩
      · exact absurd hey ho1
      · constructor
        · exact (mem_pathSet (p := (m.1 - 1, m.2))).mp (by
            rw [hset]
            rcases hst with ⟨hL, hR⟩ | ⟨hL, hR⟩
            · rw [hL]
              exact Finset.mem_insert_of_mem (Finset.mem_insert_of_mem hsS)
            · rw [hL]
              exact Finset.mem_insert_of_mem (Finset.mem_insert_self t _))
        · exact (mem_pathSet (p := (m.1 + 1, m.2))).mp (by
            rw [hset]
            rcases hst with ⟨hL, hR⟩ | ⟨hL, hR⟩
            · rw [hR]
              exact Finset.mem_insert_of_mem (Finset.mem_insert_self t _)
            · rw [hR]
              exact Finset.mem_insert_of_mem (Finset.mem_insert_of_mem hsS))
    · rcases Finset.mem_insert.mp hmem2 with he | hmem3
      · have h1 : y = t.1 := (Prod.ext_iff.mp he).1
        subst h1
        exact absurd hey hot1
      · obtain ⟨hb1, hb2⟩ := hB y x (mem_pathSet.mp hmem3) hey
        exact ⟨hsub' _ _ hb1, hsub' _ _ hb2⟩
  · intro y x h0 hex
    have hmem : (y, x) ∈ pathSet (setCell (setCell g t.1 t.2 0) m.1 m.2 0) :=
      mem_pathSet.mpr h0
    rw [hset] at hmem
    rcases Finset.mem_insert.mp hmem with he | hmem2
    · have h1 : y = m.1 := (Prod.ext_iff.mp he).1
      have h2 : x = m.2 := (Prod.ext_iff.mp he).2
      subst h1
      subst h2
      rcases hmid with ⟨_, _, hm2, hst⟩ | ⟨_, ho2, _, _⟩
      · constructor
        · exact (mem_pathSet (p := (m.1, m.2 - 1))).mp (by
            rw [hset]
            rcases hst with ⟨hL, hR⟩ | ⟨hL, hR⟩
            · rw [hL]
              exact Finset.mem_insert_of_mem (Finset.mem_insert_of_mem hsS)
            · rw [hL]
              exact Finset.mem_insert_of_mem (Finset.mem_insert_self t _))
        · exact (mem_pathSet (p := (m.1, m.2 + 1))).mp (by
            rw [hset]
            rcases hst with ⟨hL, hR⟩ | ⟨hL, hR⟩
            · rw [hR]
              exact Finset.mem_insert_of_mem (Finset.mem_insert_self t _)
            · rw [hR]
              exact Finset.mem_insert_of_mem (Finset.mem_insert_of_mem hsS))
      · exact absurd hex ho2
    · rcases Finset.mem_insert.mp hmem2 with he | hmem3
      · have h2 : x = t.2 := (Prod.ext_iff.mp he).2
        subst h2
        exact absurd hex hot2
      · obtain ⟨hb1, hb2⟩ := hC y x (mem_pathSet.mp hmem3) hex
        exact ⟨hsub' _ _ hb1, hsub' _ _ hb2⟩
  · show pairsF (pathSet (setCell (setCell g t.1 t.2 0) m.1 m.2 0)) + 1 =
      (pathSet (setCell (setCell g t.1 t.2 0) m.1 m.2 0)).card
    rw [hset]
    exact pairs_count_extend (pathSet g) m t htS hm_not hct hcm hPairs
  · exact connected_extend s m t hset hsS hadj_ms hadj_mt hConn

/-- Every carving move preserves the carving invariant when both grid
dimensions are odd. -/
theorem carveInv_move {w h : Nat} (how : Odd w) (hoh : Odd h)
    {g g' : Grid} (hs : Shaped w h g) (hmv : CarveMove w h g g')
    (hinv : CarveInv w h g) : CarveInv w h g' := by
  have hwm : w % 2 = 1 := Nat.odd_iff.mp how
  have hhm : h % 2 = 1 := Nat.odd_iff.mp hoh
  cases hmv with
  | right y x hoy hox hp hlt hwall =>
    have hym : y % 2 = 1 := Nat.odd_iff.mp hoy
    have hxm : x % 2 = 1 := Nat.odd_iff.mp hox
    obtain ⟨hy1, hy2, hx1, hx2, _⟩ := hinv.2.1 y x hp
    have hoty : ¬Even y := by
      intro he
      have := Nat.even_iff.mp he
      omega
    have hotx : ¬Even (x + 2) := by
      intro he
      have := Nat.even_iff.mp he
      omega
    have hmid : HMid (y, x) (y, x + 1) (y, x + 2) := by
      left
      refine ⟨?_, ?_, ?_, Or.inl ⟨rfl, rfl⟩⟩
      · show ¬Even y
        exact hoty
      · show Even (x + 1)
        exact Nat.even_iff.mpr (by omega)
      · show 1 ≤ x + 1
        omega
    have hbt : 1 ≤ y ∧ y ≤ h - 2 ∧ 1 ≤ x + 2 ∧ x + 2 ≤ w - 2 :=
      ⟨hy1, hy2, by omega, by omega⟩
    have hbm : 1 ≤ y ∧ y ≤ h - 2 ∧ 1 ≤ x + 1 ∧ x + 1 ≤ w - 2 :=
      ⟨hy1, hy2, by omega, by omega⟩
    exact carveInv_extend hs hinv (y, x) (y, x + 1) (y, x + 2) hp hwall
      hoty hotx hmid hbt hbm (by omega) (by omega)
  | left y x hoy hox hp hge hwall =>
    have hym : y % 2 = 1 := Nat.odd_iff.mp hoy
    have hxm : x % 2 = 1 := Nat.odd_iff.mp hox
    obtain ⟨hy1, hy2, hx1, hx2, _⟩ := hinv.2.1 y x hp
    have hoty : ¬Even y := by
      intro he
      have := Nat.even_iff.mp he
      omega
    have hotx : ¬Even (x - 2) := by
      intro he
      have := Nat.even_iff.mp he
      omega
    have hmid : HMid (y, x) (y, x - 1) (y, x - 2) := by
      left
      refine ⟨?_, ?_, ?_, Or.inr ⟨rfl, ?_⟩⟩
      · show ¬Even y
        exact hoty
      · show Even (x - 1)
        exact Nat.even_iff.mpr (by omega)
      · show 1 ≤ x - 1
        omega
      · show (y, x - 1 + 1) = (y, x)
        rw [show x - 1 + 1 = x from by omega]
    have hbt : 1 ≤ y ∧ y ≤ h - 2 ∧ 1 ≤ x - 2 ∧ x - 2 ≤ w - 2 :=
      ⟨hy1, hy2, by omega, by omega⟩
    have hbm : 1 ≤ y ∧ y ≤ h - 2 ∧ 1 ≤ x - 1 ∧ x - 1 ≤ w - 2 :=
      ⟨hy1, hy2, by omega, by omega⟩
    exact carveInv_extend hs hinv (y, x) (y, x - 1) (y, x - 2) hp hwall
      hoty hotx hmid hbt hbm (by omega) (by omega)
  | down y x hoy hox hp hlt hwall =>
    have hym : y % 2 = 1 := Nat.odd_iff.mp hoy
    have hxm : x % 2 = 1 := Nat.odd_iff.mp hox
    obtain ⟨hy1, hy2, hx1, hx2, _⟩ := hinv.2.1 y x hp
    have hoty : ¬Even (y + 2) := by
      intro he
      have := Nat.even_iff.mp he
      omega
    have hotx : ¬Even x := by
      intro he
      have := Nat.even_iff.mp he
      omega
    have hmid : HMid (y, x) (y + 1, x) (y + 2, x) := by
      right
      refine ⟨?_, ?_, ?_, Or.inl ⟨rfl, rfl⟩⟩
      · show Even (y + 1)
        exact Nat.even_iff.mpr (by omega)
      · show ¬Even x
        exact hotx
      · show 1 ≤ y + 1
        omega
    have hbt : 1 ≤ y + 2 ∧ y + 2 ≤ h - 2 ∧ 1 ≤ x ∧ x ≤ w - 2 :=
      ⟨by omega, by omega, hx1, hx2⟩
    have hbm : 1 ≤ y + 1 ∧ y + 1 ≤ h - 2 ∧ 1 ≤ x ∧ x ≤ w - 2 :=
      ⟨by omega, by omega, hx1, hx2⟩
    exact carveInv_extend hs hinv (y, x) (y + 1, x) (y + 2, x) hp hwall
      hoty hotx hmid hbt hbm (by omega) (by omega)
  | up y x hoy hox hp hge hwall =>
    have hym : y % 2 = 1 := Nat.odd_iff.mp hoy
    have hxm : x % 2 = 1 := Nat.odd_iff.mp hox
    obtain ⟨hy1, hy2, hx1, hx2, _⟩ := hinv.2.1 y x hp
    have hoty : ¬Even (y - 2) := by
      intro he
      have := Nat.even_iff.mp he
      omega
    have hotx : ¬Even x := by
      intro he
      have := Nat.even_iff.mp he
      omega
    have hmid : HMid (y, x) (y - 1, x) (y - 2, x) := by
      right
      refine ⟨?_, ?_, ?_, Or.inr ⟨rfl, ?_⟩⟩
      · show Even (y - 1)
        exact Nat.even_iff.mpr (by omega)
      · show ¬Even x
        exact hotx
      · show 1 ≤ y - 1
        omega
      · show (y - 1 + 1, x) = (y, x)
        rw [show y - 1 + 1 = y from by omega]
    have hbt : 1 ≤ y - 2 ∧ y - 2 ≤ h - 2 ∧ 1 ≤ x ∧ x ≤ w - 2 :=
      ⟨by omega, by omega, hx1, hx2⟩
    have hbm : 1 ≤ y - 1 ∧ y - 1 ≤ h - 2 ∧ 1 ≤ x ∧ x ≤ w - 2 :=
      ⟨by omega, by omega, hx1, hx2⟩
    exact carveInv_extend hs hinv (y, x) (y - 1, x) (y - 2, x) hp hwall
      hoty hotx hmid hbt hbm (by omega) (by omega)

/-- Reading the all-Wall starting grid gives Wall everywhere. -/
theorem getCell_replicate (w h y x : Nat) :
    getCell (List.replicate h (List.replicate w 1)) y x = 1 := by
  unfold getCell
  cases hrow : (List.replicate h (List.replicate w 1)).get? y with
  | none => rfl
  | some row =>
    have hr : row = List.replicate w 1 :=
      List.eq_of_mem_replicate (List.get?_mem hrow)
    subst hr
    cases hc : (List.replicate w 1).get? x with
    | none =>
      rw [Option.getD_some, hc]
      rfl
    | some c =>
      have hcc : c = 1 := List.eq_of_mem_replicate (List.get?_mem hc)
      subst hcc
      rw [Option.getD_some, hc, Option.getD_some]

/-- Each cell of the initial grid: Path at `(1, 1)`, Wall elsewhere. -/
theorem getCell_initialGrid {w h : Nat} (hw : 3 ≤ w) (hh : 3 ≤ h) (y x : Nat) :
    getCell (initialGrid w h) y x = if y = 1 ∧ x = 1 then 0 else 1 := by
  unfold initialGrid
  by_cases hc : y = 1 ∧ x = 1
  · obtain ⟨rfl, rfl⟩ := hc
    rw [if_pos ⟨rfl, rfl⟩]
    have hrep : Shaped w h (List.replicate h (List.replicate w 1)) := by
      refine ⟨List.length_replicate h _, ?_⟩
      intro r hr
      rw [List.eq_of_mem_replicate hr]
      exact List.length_replicate w 1
    exact getCell_setCell_self hrep (by omega) (by omega) 0
  · rw [if_neg hc]
    have hne2 : (1 : Nat) ≠ y ∨ (1 : Nat) ≠ x := by
      by_cases h1 : y = 1
      · subst h1
        right
        intro h2
        exact hc ⟨rfl, h2.symm⟩
      · left
        intro h2
        exact h1 h2.symm
    rw [getCell_setCell_ne hne2 0]
    exact getCell_replicate w h y x

/-- The initial grid satisfies the carving invariant. -/
theorem carveInv_init {w h : Nat} (hw : 3 ≤ w) (hh : 3 ≤ h) :
    CarveInv w h (initialGrid w h) := by
  have hg : ∀ y x, getCell (initialGrid w h) y x = if y = 1 ∧ x = 1 then 0 else 1 :=
    getCell_initialGrid hw hh
  have hps : pathSet (initialGrid w h) = {(1, 1)} := by
    apply Finset.ext
    intro p
    rw [mem_pathSet, Finset.mem_singleton, hg]
    by_cases hp : p.1 = 1 ∧ p.2 = 1
    · rw [if_pos hp]
      exact ⟨fun _ => Prod.ext_iff.mpr hp, fun _ => rfl⟩
    · rw [if_neg hp]
      constructor
      · intro h1
        exact absurd h1 one_ne_zero
      · intro he
        exact absurd (Prod.ext_iff.mp he) hp
  refine ⟨?_, ?_, ?_, ?_, ?_, ?_⟩
  · intro y x
    rw [hg y x]
    by_cases hc : y = 1 ∧ x = 1
    · rw [if_pos hc]
      exact Or.inl rfl
    · rw [if_neg hc]
      exact Or.inr rfl
  · intro y x h0
    rw [hg y x] at h0
    by_cases hc : y = 1 ∧ x = 1
    · obtain ⟨rfl, rfl⟩ := hc
      exact ⟨le_refl 1, by omega, le_refl 1, by omega, by decide⟩
    · rw [if_neg hc] at h0
      omega
  · intro y x h0 hey
    rw [hg y x] at h0
    by_cases hc : y = 1 ∧ x = 1
    · obtain ⟨rfl, rfl⟩ := hc
      exact absurd hey (by decide)
    · rw [if_neg hc] at h0
      omega
  · intro y x h0 hex
    rw [hg y x] at h0
    by_cases hc : y = 1 ∧ x = 1
    · obtain ⟨rfl, rfl⟩ := hc
      exact absurd hex (by decide)
    · rw [if_neg hc] at h0
      omega
  · show pairsF (pathSet (initialGrid w h)) + 1 = (pathSet (initialGrid w h)).card
    rw [hps]
    decide
  · intro p hp q hq
    rw [hps, Finset.mem_singleton] at hp hq
    subst hp
    subst hq
    exact Relation.ReflTransGen.refl

/-- Shape is preserved along any sequence of carving moves. -/
theorem carveReach_shaped {w h : Nat} {g g' : Grid} (hr : CarveReach w h g g')
    (hs : Shaped w h g) : Shaped w h g' := by
  induction hr with
  | refl => exact hs
  | tail _ hmv ih => exact carveMove_shaped hmv ih

/-- Both invariant and shape hold at every grid the carving recursion can
reach from the initial grid. -/
theorem carveInv_reach {w h : Nat} (how : Odd w) (hoh : Odd h)
    (hw : 3 ≤ w) (hh : 3 ≤ h) {g : Grid}
    (hr : CarveReach w h (initialGrid w h) g) :
    CarveInv w h g ∧ Shaped w h g := by
  induction hr with
  | refl => exact ⟨carveInv_init hw hh, shaped_initialGrid w h⟩
  | tail _ hmv ih =>
    exact ⟨carveInv_move how hoh ih.2 hmv ih.1, carveMove_shaped hmv ih.2⟩

/-- Every grid the carving recursion produces is reachable from its
starting grid by carving moves, for every fuel, oracle and bias, provided
the recursion starts on an odd-by-odd Path cell in bounds. -/
theorem carveDirs_reach {w h : Nat} (bias : Bias) (O : Nat → List Dir) :
    ∀ (fuel : Nat) (x y : Int) (dirs : List Dir) (g : Grid) (k : Nat),
      Shaped w h g → 0 ≤ x → x < (w : Int) → 0 ≤ y → y < (h : Int) →
      getCell g y.toNat x.toNat = 0 → Odd y.toNat → Odd x.toNat →
      CarveReach w h g (carveDirs w h bias O fuel x y dirs g k).1 := by
  intro fuel
  induction fuel with
  | zero =>
    intro x y dirs g k _ _ _ _ _ _ _ _
    exact Relation.ReflTransGen.refl
  | succ f ih =>
    intro x y dirs g k hs hx0 hxw hy0 hyh hp hoy hox
    cases dirs with
    | nil => exact Relation.ReflTransGen.refl
    | cons d rest =>
      cases d with
      | px =>
        simp only [carveDirs, Dir.dx, Dir.dy]
        split
        next hcond =>
          obtain ⟨ha, hb, hc2, hd2, he⟩ := hcond
          have hxn : (x + 1 * 2).toNat = x.toNat + 2 := by omega
          have hyn : (y + 0 * 2).toNat = y.toNat := by omega
          have hxm1 : (x + 1).toNat = x.toNat + 1 := by omega
          have hym1 : (y + 0).toNat = y.toNat := by omega
          rw [hxn, hyn] at he
          rw [hxn, hyn, hxm1, hym1]
          have hmv : CarveMove w h g
              (setCell (setCell g y.toNat (x.toNat + 2) 0) y.toNat (x.toNat + 1) 0) :=
            CarveMove.right g y.toNat x.toNat hoy hox hp (by omega) he
          have hsG2 : Shaped w h
              (setCell (setCell g y.toNat (x.toNat + 2) 0) y.toNat (x.toNat + 1) 0) :=
            (hs.setCell _ _ _).setCell _ _ _
          have hg2 : getCell
              (setCell (setCell g y.toNat (x.toNat + 2) 0) y.toNat (x.toNat + 1) 0)
              y.toNat (x.toNat + 2) = 0 := by
            rw [getCell_setCell_ne (Or.inr (by omega)) 0]
            exact getCell_setCell_self hs (by omega) (by omega) 0
          have hg2' : getCell
              (setCell (setCell g y.toNat (x.toNat + 2) 0) y.toNat (x.toNat + 1) 0)
              (y + 0 * 2).toNat (x + 1 * 2).toNat = 0 := by
            rw [hxn, hyn]
            exact hg2
          have hoy2 : Odd (y + 0 * 2).toNat := by
            rw [hyn]
            exact hoy
          have hox2 : Odd (x + 1 * 2).toNat := by
            rw [hxn]
            have := Nat.odd_iff.mp hox
            exact Nat.odd_iff.mpr (by omega)
          have hr1 := ih (x + 1 * 2) (y + 0 * 2) (biasedDirs bias (O k))
            (setCell (setCell g y.toNat (x.toNat + 2) 0) y.toNat (x.toNat + 1) 0) (k + 1)
            hsG2 (by omega) (by omega) (by omega) (by omega) hg2' hoy2 hox2
          have hsrc : getCell
              (setCell (setCell g y.toNat (x.toNat + 2) 0) y.toNat (x.toNat + 1) 0)
              y.toNat x.toNat = 0 := by
            rw [getCell_setCell_ne (Or.inr (by omega)) 0,
              getCell_setCell_ne (Or.inr (by omega)) 0]
            exact hp
          have hr2 := ih x y rest
            (carveDirs w h bias O f (x + 1 * 2) (y + 0 * 2) (biasedDirs bias (O k))
              (setCell (setCell g y.toNat (x.toNat + 2) 0) y.toNat (x.toNat + 1) 0)
              (k + 1)).1
            (carveDirs w h bias O f (x + 1 * 2) (y + 0 * 2) (biasedDirs bias (O k))
              (setCell (setCell g y.toNat (x.toNat + 2) 0) y.toNat (x.toNat + 1) 0)
              (k + 1)).2
            (carveReach_shaped hr1 hsG2) hx0 hxw hy0 hyh
            (carveReach_mono hr1 hsrc) hoy hox
          exact (Relation.ReflTransGen.single hmv).trans (hr1.trans hr2)
        next hcond =>
          exact ih x y rest g k hs hx0 hxw hy0 hyh hp hoy hox
      | mx =>
        simp only [carveDirs, Dir.dx, Dir.dy]
        split
        next hcond =>
          obtain ⟨ha, hb, hc2, hd2, he⟩ := hcond
          have hxn : (x + -1 * 2).toNat = x.toNat - 2 := by omega
          have hyn : (y + 0 * 2).toNat = y.toNat := by omega
          have hxm1 : (x + -1).toNat = x.toNat - 1 := by omega
          have hym1 : (y + 0).toNat = y.toNat := by omega
          have hxge : 2 ≤ x.toNat := by omega
          rw [hxn, hyn] at he
          rw [hxn, hyn, hxm1, hym1]
          have hmv : CarveMove w h g
              (setCell (setCell g y.toNat (x.toNat - 2) 0) y.toNat (x.toNat - 1) 0) :=
            CarveMove.left g y.toNat x.toNat hoy hox hp hxge he
          have hsG2 : Shaped w h
              (setCell (setCell g y.toNat (x.toNat - 2) 0) y.toNat (x.toNat - 1) 0) :=
            (hs.setCell _ _ _).setCell _ _ _
          have hg2 : getCell
              (setCell (setCell g y.toNat (x.toNat - 2) 0) y.toNat (x.toNat - 1) 0)
              y.toNat (x.toNat - 2) = 0 := by
            rw [getCell_setCell_ne (Or.inr (by omega)) 0]
            exact getCell_setCell_self hs (by omega) (by omega) 0
          have hg2' : getCell
              (setCell (setCell g y.toNat (x.toNat - 2) 0) y.toNat (x.toNat - 1) 0)
              (y + 0 * 2).toNat (x + -1 * 2).toNat = 0 := by
            rw [hxn, hyn]
            exact hg2
          have hoy2 : Odd (y + 0 * 2).toNat := by
            rw [hyn]
            exact hoy
          have hox2 : Odd (x + -1 * 2).toNat := by
            rw [hxn]
            have := Nat.odd_iff.mp hox
            exact Nat.odd_iff.mpr (by omega)
          have hr1 := ih (x + -1 * 2) (y + 0 * 2) (biasedDirs bias (O k))
            (setCell (setCell g y.toNat (x.toNat - 2) 0) y.toNat (x.toNat - 1) 0) (k + 1)
            hsG2 (by omega) (by omega) (by omega) (by omega) hg2' hoy2 hox2
          have hsrc : getCell
              (setCell (setCell g y.toNat (x.toNat - 2) 0) y.toNat (x.toNat - 1) 0)
              y.toNat x.toNat = 0 := by
            rw [getCell_setCell_ne (Or.inr (by omega)) 0,
              getCell_setCell_ne (Or.inr (by omega)) 0]
            exact hp
          have hr2 := ih x y rest
            (carveDirs w h bias O f (x + -1 * 2) (y + 0 * 2) (biasedDirs bias (O k))
              (setCell (setCell g y.toNat (x.toNat - 2) 0) y.toNat (x.toNat - 1) 0)
              (k + 1)).1
            (carveDirs w h bias O f (x + -1 * 2) (y + 0 * 2) (biasedDirs bias (O k))
              (setCell (setCell g y.toNat (x.toNat - 2) 0) y.toNat (x.toNat - 1) 0)
              (k + 1)).2
            (carveReach_shaped hr1 hsG2) hx0 hxw hy0 hyh
            (carveReach_mono hr1 hsrc) hoy hox
          exact (Relation.ReflTransGen.single hmv).trans (hr1.trans hr2)
        next hcond =>
          exact ih x y rest g k hs hx0 hxw hy0 hyh hp hoy hox
      | py =>
        simp only [carveDirs, Dir.dx, Dir.dy]
        split
        next hcond =>
          obtain ⟨ha, hb, hc2, hd2, he⟩ := hcond
          have hxn : (x + 0 * 2).toNat = x.toNat := by omega
          have hyn : (y + 1 * 2).toNat = y.toNat + 2 := by omega
          have hxm1 : (x + 0).toNat = x.toNat := by omega
          have hym1 : (y + 1).toNat = y.toNat + 1 := by omega
          rw [hxn, hyn] at he
          rw [hxn, hyn, hxm1, hym1]
          have hmv : CarveMove w h g
              (setCell (setCell g (y.toNat + 2) x.toNat 0) (y.toNat + 1) x.toNat 0) :=
            CarveMove.down g y.toNat x.toNat hoy hox hp (by omega) he
          have hsG2 : Shaped w h
              (setCell (setCell g (y.toNat + 2) x.toNat 0) (y.toNat + 1) x.toNat 0) :=
            (hs.setCell _ _ _).setCell _ _ _
          have hg2 : getCell
              (setCell (setCell g (y.toNat + 2) x.toNat 0) (y.toNat + 1) x.toNat 0)
              (y.toNat + 2) x.toNat = 0 := by
            rw [getCell_setCell_ne (Or.inl (by omega)) 0]
            exact getCell_setCell_self hs (by omega) (by omega) 0
          have hg2' : getCell
              (setCell (setCell g (y.toNat + 2) x.toNat 0) (y.toNat + 1) x.toNat 0)
              (y + 1 * 2).toNat (x + 0 * 2).toNat = 0 := by
            rw [hxn, hyn]
            exact hg2
          have hoy2 : Odd (y + 1 * 2).toNat := by
            rw [hyn]
            have := Nat.odd_iff.mp hoy
            exact Nat.odd_iff.mpr (by omega)
          have hox2 : Odd (x + 0 * 2).toNat := by
            rw [hxn]
            exact hox
          have hr1 := ih (x + 0 * 2) (y + 1 * 2) (biasedDirs bias (O k))
            (setCell (setCell g (y.toNat + 2) x.toNat 0) (y.toNat + 1) x.toNat 0) (k + 1)
            hsG2 (by omega) (by omega) (by omega) (by omega) hg2' hoy2 hox2
          have hsrc : getCell
              (setCell (setCell g (y.toNat + 2) x.toNat 0) (y.toNat + 1) x.toNat 0)
              y.toNat x.toNat = 0 := by
            rw [getCell_setCell_ne (Or.inl (by omega)) 0,
              getCell_setCell_ne (Or.inl (by omega)) 0]
            exact hp
          have hr2 := ih x y rest
            (carveDirs w h bias O f (x + 0 * 2) (y + 1 * 2) (biasedDirs bias (O k))
              (setCell (setCell g (y.toNat + 2) x.toNat 0) (y.toNat + 1) x.toNat 0)
              (k + 1)).1
            (carveDirs w h bias O f (x + 0 * 2) (y + 1 * 2) (biasedDirs bias (O k))
              (setCell (setCell g (y.toNat + 2) x.toNat 0) (y.toNat + 1) x.toNat 0)
              (k + 1)).2
            (carveReach_shaped hr1 hsG2) hx0 hxw hy0 hyh
            (carveReach_mono hr1 hsrc) hoy hox
          exact (Relation.ReflTransGen.single hmv).trans (hr1.trans hr2)
        next hcond =>
          exact ih x y rest g k hs hx0 hxw hy0 hyh hp hoy hox
      | my =>
        simp only [carveDirs, Dir.dx, Dir.dy]
        split
        next hcond =>
          obtain ⟨ha, hb, hc2, hd2, he⟩ := hcond
          have hxn : (x + 0 * 2).toNat = x.toNat := by omega
          have hyn : (y + -1 * 2).toNat = y.toNat - 2 := by omega
          have hxm1 : (x + 0).toNat = x.toNat := by omega
          have hym1 : (y + -1).toNat = y.toNat - 1 := by omega
          have hyge : 2 ≤ y.toNat := by omega
          rw [hxn, hyn] at he
          rw [hxn, hyn, hxm1, hym1]
          have hmv : CarveMove w h g
              (setCell (setCell g (y.toNat - 2) x.toNat 0) (y.toNat - 1) x.toNat 0) :=
            CarveMove.up g y.toNat x.toNat hoy hox hp hyge he
          have hsG2 : Shaped w h
              (setCell (setCell g (y.toNat - 2) x.toNat 0) (y.toNat - 1) x.toNat 0) :=
            (hs.setCell _ _ _).setCell _ _ _
          have hg2 : getCell
              (setCell (setCell g (y.toNat - 2) x.toNat 0) (y.toNat - 1) x.toNat 0)
              (y.toNat - 2) x.toNat = 0 := by
            rw [getCell_setCell_ne (Or.inl (by omega)) 0]
            exact getCell_setCell_self hs (by omega) (by omega) 0
          have hg2' : getCell
              (setCell (setCell g (y.toNat - 2) x.toNat 0) (y.toNat - 1) x.toNat 0)
              (y + -1 * 2).toNat (x + 0 * 2).toNat = 0 := by
            rw [hxn, hyn]
            exact hg2
          have hoy2 : Odd (y + -1 * 2).toNat := by
            rw [hyn]
            have := Nat.odd_iff.mp hoy
            exact Nat.odd_iff.mpr (by omega)
          have hox2 : Odd (x + 0 * 2).toNat := by
            rw [hxn]
            exact hox
          have hr1 := ih (x + 0 * 2) (y + -1 * 2) (biasedDirs bias (O k))
            (setCell (setCell g (y.toNat - 2) x.toNat 0) (y.toNat - 1) x.toNat 0) (k + 1)
            hsG2 (by omega) (by omega) (by omega) (by omega) hg2' hoy2 hox2
          have hsrc : getCell
              (setCell (setCell g (y.toNat - 2) x.toNat 0) (y.toNat - 1) x.toNat 0)
              y.toNat x.toNat = 0 := by
            rw [getCell_setCell_ne (Or.inl (by omega)) 0,
              getCell_setCell_ne (Or.inl (by omega)) 0]
            exact hp
          have hr2 := ih x y rest
            (carveDirs w h bias O f (x + 0 * 2) (y + -1 * 2) (biasedDirs bias (O k))
              (setCell (setCell g (y.toNat - 2) x.toNat 0) (y.toNat - 1) x.toNat 0)
              (k + 1)).1
            (carveDirs w h bias O f (x + 0 * 2) (y + -1 * 2) (biasedDirs bias (O k))
              (setCell (setCell g (y.toNat - 2) x.toNat 0) (y.toNat - 1) x.toNat 0)
              (k + 1)).2
            (carveReach_shaped hr1 hsG2) hx0 hxw hy0 hyh
            (carveReach_mono hr1 hsrc) hoy hox
          exact (Relation.ReflTransGen.single hmv).trans (hr1.trans hr2)
        next hcond =>
          exact ih x y rest g k hs hx0 hxw hy0 hyh hp hoy hox

/-- Folding a step that fixes the accumulator leaves it unchanged. -/
theorem foldl_fixed_of_self {α β : Type _} (f : α → β → α) (a : α)
    (hf : ∀ b, f a b = a) : ∀ (l : List β), l.foldl f a = a := by
  intro l
  induction l with
  | nil => rfl
  | cons b bs ih =>
    rw [List.foldl_cons, hf b]
    exact ih

/-- On an invariant grid border enforcement is the identity: every border
cell already holds Wall, so each write is a no-op. -/
theorem applyBorders_eq_self {w h : Nat} {g : Grid}
    (hinv : CarveInv w h g) : applyBorders g w h = g := by
  have hwall : ∀ y x, onBorder w h y x → getCell g y x = 1 := by
    intro y x hb
    rcases hinv.1 y x with h0 | h1
    · obtain ⟨h1', h2', h3', h4', _⟩ := hinv.2.1 y x h0
      unfold onBorder at hb
      omega
    · exact h1
  simp only [applyBorders]
  have h1 : (List.range w).foldl
      (fun acc i => setCell (setCell acc 0 i 1) (h - 1) i 1) g = g := by
    apply foldl_fixed_of_self
    intro i
    rw [setCell_eq_self (hwall 0 i (Or.inl rfl)),
      setCell_eq_self (hwall (h - 1) i (Or.inr (Or.inl rfl)))]
  rw [h1]
  apply foldl_fixed_of_self
  intro i
  rw [setCell_eq_self (hwall i 0 (Or.inr (Or.inr (Or.inl rfl)))),
    setCell_eq_self (hwall i (w - 1) (Or.inr (Or.inr (Or.inr rfl))))]

/-- C1 is false as stated: at width 4, height 5 (even width, spec range
allows both) with entries `None` and the identity shuffle oracle, the
depth-first layer has two Path components, so it is not a perfect maze. -/
theorem c1_counterexample :
    ¬ isPerfectMaze (randomizedDepthFirst 4 5 .noEntries .noBias
      (fun _ => baseDirs)) := by
  intro hpm
  have hne : ¬(pathPairs (randomizedDepthFirst 4 5 .noEntries .noBias
      (fun _ => baseDirs)) + 1 =
      pathCount (randomizedDepthFirst 4 5 .noEntries .noBias
      (fun _ => baseDirs))) := by decide
  exact hne hpm.2

/-- C1 (amended): for every odd width and odd height at least `3`, with
entries `None`, every bias and every shuffle oracle, the layer produced by
`randomizedDepthFirst` is a perfect maze: its Path cells are mutually
connected and the adjacent-Path-pair count is the Path-cell count minus
one. -/
theorem c1_amended_dfs_perfect (w h : Nat) (how : Odd w) (hoh : Odd h)
    (hw : 3 ≤ w) (hh : 3 ≤ h) (bias : Bias) (O : Nat → List Dir) :
    isPerfectMaze (randomizedDepthFirst w h .noEntries bias O) := by
  have hp0 : getCell (initialGrid w h) (1 : Int).toNat (1 : Int).toNat = 0 := by
    show getCell (initialGrid w h) 1 1 = 0
    rw [getCell_initialGrid hw hh 1 1]
    rfl
  have hreach : CarveReach w h (initialGrid w h)
      (carve w h bias O (5 * (w * h) + 5) 1 1 (initialGrid w h) 0).1 := by
    unfold carve
    exact carveDirs_reach bias O (5 * (w * h) + 5) 1 1
      (biasedDirs bias (O 0)) (initialGrid w h) (0 + 1)
      (shaped_initialGrid w h) (by omega) (by omega) (by omega) (by omega)
      hp0 (by decide) (by decide)
  obtain ⟨hinv, hshaped⟩ := carveInv_reach how hoh hw hh hreach
  show isPerfectMaze
    (applyBorders (carve w h bias O (5 * (w * h) + 5) 1 1 (initialGrid w h) 0).1 w h)
  rw [applyBorders_eq_self hinv]
  exact ⟨hinv.2.2.2.2.2, hinv.2.2.2.2.1⟩

/-- Witness: the amended C1 theorem applied at `3 × 3` with no bias and
the identity shuffle oracle. -/
theorem c1_amended_dfs_perfect_witness :
    isPerfectMaze (randomizedDepthFirst 3 3 .noEntries .noBias
      (fun _ => baseDirs)) :=
  c1_amended_dfs_perfect 3 3 (by decide) (by decide) (by omega) (by omega)
    .noBias (fun _ => baseDirs)

/-- Witness: the amended C6 theorem applied to the all-Wall `1 × 1` layer. -/
theorem c6_amended_no_path_cell_null_fields_witness :
    ([[1]] : Grid) ≠ [] ∧
      (computeMarkersFromLayer (some [[1]]) = some ⟨none, none⟩ ∧
        computeMarkersFromLayer none = none) :=
  ⟨by decide,
    c6_amended_no_path_cell_null_fields [[1]] (by decide)
      (fun y x =>
        match y, x with
        | 0, 0 => by decide
        | 0, _ + 1 => fun hcontra => Option.noConfusion hcontra
        | _ + 1, _ => fun hcontra => Option.noConfusion hcontra)⟩

/-- Witness: the C7 marker-selection theorem applied to a `3 × 3` layer
whose only Path cell is the interior centre. -/
theorem c7_marker_selection_witness :
    (∀ r ∈ ([[1, 1, 1], [1, 0, 1], [1, 1, 1]] : Grid), r.length = 3) ∧
    (∃ y x, cellAt [[1, 1, 1], [1, 0, 1], [1, 1, 1]] y x = some 0) ∧
    computeMarkersFromLayer (some [[1, 1, 1], [1, 0, 1], [1, 1, 1]]) =
      some ⟨some ⟨1, 1⟩, some ⟨1, 1⟩⟩ :=
  ⟨by decide, ⟨1, 1, by decide⟩,
    (c7_marker_selection [[1, 1, 1], [1, 0, 1], [1, 1, 1]] 3 (by decide)
        ⟨1, 1, by decide⟩).trans (by rfl)⟩

/-- Witness: the C2 wall-connector theorem applied to a single `2 × 2`
layer at cell `(0, 0)`. -/
theorem c2_wall_connectors_iff_witness :
    (hSegment 0 0 0 1 1 1 ∈ buildWallSegments [[[1, 1], [1, 0]]] 1 1 1 ↔
      cellAtStack [[[1, 1], [1, 0]]] 0 0 0 = some 1 ∧
      cellAtStack [[[1, 1], [1, 0]]] 0 0 1 = some 1) ∧
    (vSegment 0 0 0 1 1 1 ∈ buildWallSegments [[[1, 1], [1, 0]]] 1 1 1 ↔
      cellAtStack [[[1, 1], [1, 0]]] 0 0 0 = some 1 ∧
      cellAtStack [[[1, 1], [1, 0]]] 0 1 0 = some 1) ∧
    (cellAtStack [[[1, 1], [1, 0]]] 0 0 1 ≠ some 1 →
      cellAtStack [[[1, 1], [1, 0]]] 0 1 0 ≠ some 1 →
      ∀ s ∈ buildWallSegments [[[1, 1], [1, 0]]] 1 1 1,
        ¬(s.layerIndex = 0 ∧ s.row = 0 ∧ s.col = 0)) :=
  c2_wall_connectors_iff [[[1, 1], [1, 0]]] 1 1 1 0 0 0

/-- Witness: the C9 floor-tile theorem applied to a two-layer stack of
`1 × 1` Path layers at the upper layer's single cell. -/
theorem c9_floor_tiles_witness :
    ((buildFloorTiles [[[0]], [[0]]] 1 1 1).count (groundTile [[0]] 1 1) = 1) ∧
    (∀ t ∈ buildFloorTiles [[[0]], [[0]]] 1 1 1, t.layerIndex = 0 →
      t = groundTile [[0]] 1 1) ∧
    ((buildFloorTiles [[[0]], [[0]]] 1 1 1).count (unitTile 1 0 0 1 1) =
      if 0 < 1 ∧ cellAtStack [[[0]], [[0]]] 1 0 0 ≠ none ∧
          cellAtStack [[[0]], [[0]]] 1 0 0 ≠ some 2 then 1 else 0) :=
  c9_floor_tiles [[0]] [[[0]]] 1 1 1 1 0 0

/-- Witness: the C8 border-enforcement theorem applied at `3 × 3`, corner
`(0, 0)`, entries `'none'`. -/
theorem c8_border_enforcement_witness :
    ((3 : Nat) ≤ 3 ∧ (0 : Nat) < 3 ∧ onBorder 3 3 0 0) ∧
    ((getCell (randomizedDepthFirst 3 3 .noEntries .noBias (fun _ => baseDirs)) 0 0 =
        if ((0 : Nat), (0 : Nat)) ∈ entryCells 3 3 .noEntries then 0 else 1) ∧
      (getCell (randomizedPrims 3 3 .noEntries (fun _ => 0) (fun _ => 0)) 0 0 =
        if ((0 : Nat), (0 : Nat)) ∈ entryCells 3 3 .noEntries then 0 else 1) ∧
      (∀ p ∈ entryCells 3 3 .noEntries, onBorder 3 3 p.1 p.2 ∧ p.1 < 3 ∧ p.2 < 3)) :=
  ⟨⟨by omega, by omega, Or.inl rfl⟩,
    c8_border_enforcement 3 3 (by omega) (by omega) .noEntries .noBias
      (fun _ => baseDirs) (fun _ => 0) (fun _ => 0) 0 0 (by omega) (by omega)
      (Or.inl rfl)⟩

end MazeSolver3D
